import Mathlib

/-!
Verification development for the portfolio page renderer (`js/interpreter.js`).

The JavaScript source is shallowly embedded: every function under test is
translated into an executable Lean definition operating on `String` /
`List Char`, with JavaScript regular-expression scans rendered as explicit
recursive scanners (fuel-indexed where the scan advances past a match, with
fuel initialised to the input length, which always suffices because every
step consumes at least one character).  JavaScript truthiness on strings is
modelled by `jsOr`, absent object fields by `Option`.
-/

namespace Interp

/-- JavaScript truthy fallback `a || b` for an optional string field:
`none` (undefined/null) and the empty string are falsy. -/
def jsOr (a : Option String) (b : String) : String :=
  match a with
  | none => b
  | some s => if s = "" then b else s

/-- JavaScript truthy fallback `a || b` for two strings. -/
def strOr (a b : String) : String := if a = "" then b else a

/-- ASCII lowercasing of one character, as JavaScript `toLowerCase` acts on
ASCII input (non-ASCII letters are left unchanged by this model). -/
def asciiLower (c : Char) : Char :=
  if 65 ≤ c.toNat ∧ c.toNat ≤ 90 then Char.ofNat (c.toNat + 32) else c

/-- Characters matched by the JavaScript regex class `\s` (ASCII part plus
no-break space and BOM; the remaining exotic Unicode spaces are omitted from
the model). -/
def jsWhitespaceChar (c : Char) : Bool :=
  c = ' ' ∨ c = '\t' ∨ c = '\n' ∨ c = '\r' ∨ c = '\x0b' ∨ c = '\x0c' ∨
  c.toNat = 160 ∨ c.toNat = 65279

/-- Boolean prefix test on character lists. -/
def listPrefix : List Char → List Char → Bool
  | [], _ => true
  | _ :: _, [] => false
  | p :: ps, c :: cs => p = c && listPrefix ps cs

/-- Boolean substring test on character lists. -/
def hasSubstr (pat : List Char) : List Char → Bool
  | [] => listPrefix pat []
  | c :: cs => listPrefix pat (c :: cs) || hasSubstr pat cs

/-- The split of JavaScript `String.prototype.split` with a one-character
separator: never returns an empty list, `"".split` gives `[""]`. -/
def jsplit (sep : Char) : List Char → List (List Char)
  | [] => [[]]
  | c :: cs =>
    match jsplit sep cs with
    | [] => [[]]
    | s :: ss => if c = sep then [] :: s :: ss else (c :: s) :: ss

/-- JavaScript `Array.prototype.join` with a one-character separator. -/
def jjoin (sep : Char) : List (List Char) → List Char
  | [] => []
  | [x] => x
  | x :: xs => x ++ sep :: jjoin sep xs

/-- Concatenation of a list of strings (join with the empty separator). -/
def strJoin : List String → String
  | [] => ""
  | s :: rest => s ++ strJoin rest

/-- GetSubstitution on a string replacement under a capture-group-free regex
(the template patterns of `expandTemplatePath` define no capture groups, so
the `$n` and `$<` escapes fall through to the literal-dollar default): a
doubled dollar yields one dollar, a dollar before an ampersand the matched
text, a dollar before a backquote the part of the subject before the match,
a dollar before an apostrophe the part after it; any other dollar is
literal. -/
def getSubst (matched pre post : List Char) : List Char → List Char
  | [] => []
  | '$' :: '$' :: rest => '$' :: getSubst matched pre post rest
  | '$' :: '&' :: rest => matched ++ getSubst matched pre post rest
  | '$' :: '\x60' :: rest => pre ++ getSubst matched pre post rest
  | '$' :: '\x27' :: rest => post ++ getSubst matched pre post rest
  | c :: rest => c :: getSubst matched pre post rest

/-- One step list of the global literal-pattern replace scanner: at each
position, if the (non-empty) pattern matches, emit the replacement — after
JavaScript `GetSubstitution` processing of its dollar escapes against the
matched text, the already consumed prefix of the subject and the unconsumed
suffix — and resume after the match (the emitted text is not rescanned, as
in JavaScript `String.prototype.replace`); otherwise move one character
forward, appending it to the consumed prefix. -/
def replaceAllGo (pat rep : List Char) : Nat → List Char → List Char → List Char
  | 0, _, s => s
  | _ + 1, _, [] => []
  | fuel + 1, pre, c :: cs =>
    if pat ≠ [] ∧ listPrefix pat (c :: cs) then
      getSubst pat pre (List.drop (pat.length - 1) cs) rep ++
        replaceAllGo pat rep fuel (pre ++ pat) (List.drop (pat.length - 1) cs)
    else
      c :: replaceAllGo pat rep fuel (pre ++ [c]) cs

/-- JavaScript `s.replace(/pat/g, rep)` for a literal pattern `pat` and a
string replacement `rep` (dollar escapes in `rep` are processed per match). -/
def replaceAllL (pat rep s : List Char) : List Char := replaceAllGo pat rep s.length [] s

/-- String wrapper for `replaceAllL`. -/
def rAll (s pat rep : String) : String := ⟨replaceAllL pat.data rep.data s.data⟩

/-- Source line 353: `escapeHtml`.  The replacement map of the source reads
`{ "&":"&amp;","<":"&lt;","&gt;":"&gt;",'"':"&quot;","'":"&#39;" }`: the key
for the greater-than sign is misspelled as the entity `"&gt;"`, so the lookup
for the character `>` yields `undefined`, which `String.prototype.replace`
coerces to the literal text `undefined`. -/
def escChar (c : Char) : List Char :=
  if c = '&' then "&amp;".data
  else if c = '<' then "&lt;".data
  else if c = '>' then "undefined".data
  else if c = '\x22' then "&quot;".data
  else if c = '\x27' then "&#39;".data
  else [c]

/-- Source line 353: `escapeHtml(s)` replaces each of `& < > " '` through the
(buggy, see `escChar`) replacement map. -/
def escapeHtml (s : String) : String := ⟨(s.data.map escChar).flatten⟩

/-- Characters admitted by the regex class `[^\s)]` used by the autolinker. -/
def linkChar (c : Char) : Bool := !jsWhitespaceChar c && c ≠ ')'

/-- The `$1`-based anchor replacement of the autolinker. -/
def anchorFor (url : List Char) : List Char :=
  "<a href=\"".data ++ url ++ "\" class=\"btn\">".data ++ url ++ "</a>".data

/-- Scanner for `esc.replace(/(https?:\/\/[^\s)]+)/g, ...)` (source line 356):
leftmost match of a literal protocol followed by at least one `[^\s)]`
character, taken greedily. -/
def autolinkGo : Nat → List Char → List Char
  | 0, s => s
  | _ + 1, [] => []
  | fuel + 1, c :: cs =>
    if listPrefix "https://".data (c :: cs) then
      let tail := List.drop 7 cs
      let run := tail.takeWhile linkChar
      if run.isEmpty then c :: autolinkGo fuel cs
      else anchorFor ("https://".data ++ run) ++ autolinkGo fuel (tail.drop run.length)
    else if listPrefix "http://".data (c :: cs) then
      let tail := List.drop 6 cs
      let run := tail.takeWhile linkChar
      if run.isEmpty then c :: autolinkGo fuel cs
      else anchorFor ("http://".data ++ run) ++ autolinkGo fuel (tail.drop run.length)
    else c :: autolinkGo fuel cs

/-- Scanner for `/\*\*([^*]+)\*\*/g` (source line 357): double-asterisk
delimited runs become `<strong>` spans. -/
def boldGo : Nat → List Char → List Char
  | 0, s => s
  | _ + 1, [] => []
  | fuel + 1, c :: cs =>
    if c = '*' then
      match cs with
      | c2 :: cs2 =>
        if c2 = '*' then
          let run := cs2.takeWhile (fun x => x ≠ '*')
          let rest := cs2.drop run.length
          if run.isEmpty then c :: boldGo fuel cs
          else if listPrefix ['*', '*'] rest then
            "<strong>".data ++ run ++ "</strong>".data ++ boldGo fuel (rest.drop 2)
          else c :: boldGo fuel cs
        else c :: boldGo fuel cs
      | [] => [c]
    else c :: boldGo fuel cs

/-- Scanner for `/\*([^*]+)\*/g` (source line 357): single-asterisk delimited
runs become `<em>` spans. -/
def italGo : Nat → List Char → List Char
  | 0, s => s
  | _ + 1, [] => []
  | fuel + 1, c :: cs =>
    if c = '*' then
      let run := cs.takeWhile (fun x => x ≠ '*')
      let rest := cs.drop run.length
      if run.isEmpty then c :: italGo fuel cs
      else if listPrefix ['*'] rest then
        "<em>".data ++ run ++ "</em>".data ++ italGo fuel (rest.drop 1)
      else c :: italGo fuel cs
    else c :: italGo fuel cs

/-- Source lines 354-358: `richText` escapes, then autolinks bare URLs, then
applies bold and italic substitutions, in that order. -/
def richText (s : String) : String :=
  let esc := (escapeHtml s).data
  let linked := autolinkGo esc.length esc
  ⟨italGo (boldGo linked.length linked).length (boldGo linked.length linked)⟩

/-! ### Path and template resolution -/

/-- Strip of a final `.ext` as by `replace(/\.[^.]+$/, "")`: the last dot must
be followed by at least one non-dot character. -/
def stripExtL (s : List Char) : List Char :=
  let r := s.reverse
  let pre := r.takeWhile (fun c => c ≠ '.')
  if pre.length = r.length then s
  else if pre.isEmpty then s
  else (r.drop (pre.length + 1)).reverse

/-- Source lines 258-261: `filenameStem` takes the last `/`-segment and strips
a trailing extension. -/
def filenameStem (id : String) : String :=
  ⟨stripExtL (List.getLastD (jsplit '/' id.data) [])⟩

/-- Source line 282: `isHttp` tests `/^https?:\/\//i`. -/
def isHttp (s : String) : Bool :=
  listPrefix "http://".data (s.data.map asciiLower) ||
  listPrefix "https://".data (s.data.map asciiLower)

/-- Strip of leading path separators as by `replace(/^\/+/, "")`. -/
def stripLeadingSlashes (s : String) : String :=
  ⟨s.data.dropWhile (fun c => c = '/')⟩

/-- Route context `{cls, id}` as produced by `parseRoute`; absent values are
`none`. -/
structure Ctx where
  cls : Option String := none
  id : Option String := none
deriving DecidableEq

/-- Per-item record of a media element (`src`, `label`, `language`, `alt`,
`description`, inline `code`); absent fields are `none`. -/
structure Item where
  src : Option String := none
  label : Option String := none
  language : Option String := none
  alt : Option String := none
  description : Option String := none
  code : Option String := none
deriving DecidableEq

/-- A loosely-typed entry of an `items` array: the design-brief renderer
consumes plain strings there while the media renderers consume records. -/
inductive ItemEntry where
  | str (s : String)
  | obj (it : Item)
deriving DecidableEq

/-- Field access `entry.src` under JavaScript semantics (a string has no such
property, hence `undefined`). -/
def ItemEntry.src : ItemEntry → Option String
  | .str _ => none
  | .obj it => it.src

/-- Field access `entry.label`. -/
def ItemEntry.label : ItemEntry → Option String
  | .str _ => none
  | .obj it => it.label

/-- Field access `entry.language`. -/
def ItemEntry.language : ItemEntry → Option String
  | .str _ => none
  | .obj it => it.language

/-- Field access `entry.alt`. -/
def ItemEntry.alt : ItemEntry → Option String
  | .str _ => none
  | .obj it => it.alt

/-- Field access `entry.description`. -/
def ItemEntry.description : ItemEntry → Option String
  | .str _ => none
  | .obj it => it.description

/-- Field access `entry.code`. -/
def ItemEntry.code : ItemEntry → Option String
  | .str _ => none
  | .obj it => it.code

/-- JavaScript `String(entry)` for an items entry: strings are themselves,
plain objects stringify to `[object Object]`. -/
def ItemEntry.asString : ItemEntry → String
  | .str s => s
  | .obj _ => "[object Object]"

/-- One element record of a page document; absent fields are `none`, and a
non-array `items` value is modelled as `none` (the source guards every use
with `Array.isArray`). -/
structure Element where
  type : Option String := none
  title : Option String := none
  label : Option String := none
  content : Option String := none
  text : Option String := none
  src : Option String := none
  items : Option (List ItemEntry) := none
deriving DecidableEq

/-- The fetched page document; absent fields are `none`, non-array `brief` or
`elements` values are likewise modelled as `none`. -/
structure Page where
  title : Option String := none
  name : Option String := none
  date : Option String := none
  type : Option String := none
  brief : Option (List String) := none
  elements : Option (List Element) := none
deriving DecidableEq

/-- Source lines 283-298: `expandTemplatePath` first expands `{file}`,
`{class}`, `{id}` inside the page title (in that order), then substitutes
`{title}`, `{class}`, `{type}`, `{id}`, `{file}` into the path, in that
order.  Each substitution is a fresh global replace over the previous result. -/
def expandTemplatePath (p : Option String) (page : Page) (ctx : Ctx) : String :=
  let idStr := jsOr ctx.id ""
  let file := filenameStem idStr
  let templatedTitle :=
    rAll (rAll (rAll (jsOr page.title idStr) "\x7bfile\x7d" file)
      "\x7bclass\x7d" (jsOr ctx.cls "")) "\x7bid\x7d" idStr
  rAll (rAll (rAll (rAll (rAll (jsOr p "") "\x7btitle\x7d" templatedTitle)
    "\x7bclass\x7d" (jsOr ctx.cls "")) "\x7btype\x7d" (jsOr page.type ""))
    "\x7bid\x7d" idStr) "\x7bfile\x7d" file

/-- Word characters of the regex class `\w`. -/
def wordChar (c : Char) : Bool :=
  (48 ≤ c.toNat ∧ c.toNat ≤ 57) ∨ (65 ≤ c.toNat ∧ c.toNat ≤ 90) ∨
  (97 ≤ c.toNat ∧ c.toNat ≤ 122) ∨ c = '_'

/-- Scanner for `str.replace(/\{(\w+)\}/g, (_, k) => k in vars ? vars[k] : ...)`
(source lines 67-69): a brace-delimited word substitutes its bound value when
the key is present, and is kept verbatim otherwise.  The source uses a
function replacer here, so the returned value is spliced literally — no
replacement-string dollar processing applies. -/
def tplGo (vars : List (String × String)) : Nat → List Char → List Char
  | 0, s => s
  | _ + 1, [] => []
  | fuel + 1, c :: cs =>
    if c = '\x7b' then
      let w := cs.takeWhile wordChar
      let rest := cs.drop w.length
      if w.isEmpty then c :: tplGo vars fuel cs
      else
        match rest with
        | '\x7d' :: tail =>
          (match List.lookup (⟨w⟩ : String) vars with
           | some v => v.data
           | none => c :: w ++ ['\x7d']) ++ tplGo vars fuel tail
        | _ => c :: tplGo vars fuel cs
    else c :: tplGo vars fuel cs

/-- Source lines 67-69: render-local `tpl`. -/
def tpl (str : String) (vars : List (String × String)) : String :=
  ⟨tplGo vars str.data.length str.data⟩

/-! ### Percent encoding (models of the `encodeURIComponent` /
`decodeURIComponent` builtins) -/

/-- Characters `encodeURIComponent` leaves unescaped:
`A-Z a-z 0-9 - _ . ! ~ * ' ( )`. -/
def uriUnreservedChar (c : Char) : Bool :=
  let n := c.toNat
  (48 ≤ n ∧ n ≤ 57) ∨ (65 ≤ n ∧ n ≤ 90) ∨ (97 ≤ n ∧ n ≤ 122) ∨
  n = 45 ∨ n = 95 ∨ n = 46 ∨ n = 33 ∨ n = 126 ∨ n = 42 ∨ n = 39 ∨ n = 40 ∨ n = 41

/-- UTF-8 bytes of one scalar value. -/
def utf8Bytes (c : Char) : List Nat :=
  let n := c.toNat
  if n < 128 then [n]
  else if n < 2048 then [192 + n / 64, 128 + n % 64]
  else if n < 65536 then [224 + n / 4096, 128 + n / 64 % 64, 128 + n % 64]
  else [240 + n / 262144, 128 + n / 4096 % 64, 128 + n / 64 % 64, 128 + n % 64]

/-- Upper-case hex digit of a value below 16. -/
def hexUpper (n : Nat) : Char :=
  if n < 10 then Char.ofNat (48 + n) else Char.ofNat (55 + n)

/-- The `%XX` escape of one byte. -/
def pctTriple (b : Nat) : List Char := ['%', hexUpper (b / 16), hexUpper (b % 16)]

/-- Encoding of one character as `encodeURIComponent` does: unreserved
characters stay, every other character contributes the `%XX` escapes of its
UTF-8 bytes. -/
def encChar (c : Char) : List Char :=
  if uriUnreservedChar c then [c] else ((utf8Bytes c).map pctTriple).flatten

/-- Model of the `encodeURIComponent` builtin. -/
def encodeURIComponentM (s : String) : String := ⟨(s.data.map encChar).flatten⟩

/-- Numeric value of one hex digit (upper or lower case). -/
def hexVal (c : Char) : Option Nat :=
  let n := c.toNat
  if 48 ≤ n ∧ n ≤ 57 then some (n - 48)
  else if 65 ≤ n ∧ n ≤ 70 then some (n - 55)
  else if 97 ≤ n ∧ n ≤ 102 then some (n - 87)
  else none

/-- A token of the percent-decoder: a plain character or a decoded byte. -/
inductive PctTok where
  | ch (c : Char)
  | byte (b : Nat)
deriving DecidableEq

/-- First phase of the percent-decoder: each well-formed `%XX` becomes a byte
token, everything else passes through as a character token. -/
def pctTokens : List Char → List PctTok
  | [] => []
  | '%' :: h1 :: h2 :: cs2 =>
    (match hexVal h1, hexVal h2 with
     | some a, some b => .byte (16 * a + b) :: pctTokens cs2
     | _, _ => .ch '%' :: pctTokens (h1 :: h2 :: cs2))
  | c :: cs => .ch c :: pctTokens cs

/-- Continuation-byte test for UTF-8 decoding. -/
def utf8Cont (b : Nat) : Bool := 128 ≤ b ∧ b < 192

/-- Second phase of the percent-decoder: reassemble UTF-8 sequences from byte
tokens.  Malformed sequences produce U+FFFD (the builtin throws `URIError`
there; no theorem below depends on malformed input).  The fuel argument only
serves structural recursion: every step consumes at least one token, so a fuel
equal to the token count never runs out. -/
def utf8DecodeGo : Nat → List PctTok → List Char
  | 0, _ => []
  | _ + 1, [] => []
  | fuel + 1, .ch c :: rest => c :: utf8DecodeGo fuel rest
  | fuel + 1, .byte b :: rest =>
    if b < 128 then Char.ofNat b :: utf8DecodeGo fuel rest
    else if b < 194 then '\xfd' :: utf8DecodeGo fuel rest
    else if b < 224 then
      match rest with
      | .byte b1 :: rest2 =>
        if utf8Cont b1 then
          Char.ofNat ((b - 192) * 64 + (b1 - 128)) :: utf8DecodeGo fuel rest2
        else '\xfd' :: utf8DecodeGo fuel rest
      | _ => '\xfd' :: utf8DecodeGo fuel rest
    else if b < 240 then
      match rest with
      | .byte b1 :: .byte b2 :: rest2 =>
        if utf8Cont b1 ∧ utf8Cont b2 then
          Char.ofNat ((b - 224) * 4096 + (b1 - 128) * 64 + (b2 - 128)) ::
            utf8DecodeGo fuel rest2
        else '\xfd' :: utf8DecodeGo fuel rest
      | _ => '\xfd' :: utf8DecodeGo fuel rest
    else if b < 245 then
      match rest with
      | .byte b1 :: .byte b2 :: .byte b3 :: rest2 =>
        if utf8Cont b1 ∧ utf8Cont b2 ∧ utf8Cont b3 then
          Char.ofNat ((b - 240) * 262144 + (b1 - 128) * 4096 +
            (b2 - 128) * 64 + (b3 - 128)) :: utf8DecodeGo fuel rest2
        else '\xfd' :: utf8DecodeGo fuel rest
      | _ => '\xfd' :: utf8DecodeGo fuel rest
    else '\xfd' :: utf8DecodeGo fuel rest

/-- Model of the `decodeURIComponent` builtin. -/
def decodeURIComponentM (s : String) : String :=
  ⟨utf8DecodeGo (pctTokens s.data).length (pctTokens s.data)⟩

/-- Source line 299: `encodeLocalPath` splits on `/`, percent-encodes every
non-empty segment individually, and rejoins with `/`. -/
def encodeLocalPath (p : String) : String :=
  ⟨jjoin '/' ((jsplit '/' p.data).map
    (fun seg => if seg.isEmpty then [] else (encodeURIComponentM ⟨seg⟩).data))⟩

/-- Segment-wise percent-decoding (the inverse reading of `encodeLocalPath`
used by the round-trip property). -/
def decodeLocalPath (p : String) : String :=
  ⟨jjoin '/' ((jsplit '/' p.data).map (fun seg => (decodeURIComponentM ⟨seg⟩).data))⟩

/-- Source lines 300-304: `makeSrc` expands placeholders, strips leading
slashes, keeps absolute `http(s)` locators unchanged and otherwise prefixes
the configured base path onto the segment-encoded reference. -/
def makeSrc (base : String) (p : Option String) (page : Page) (ctx : Ctx) : String :=
  let expanded := stripLeadingSlashes (expandTemplatePath p page ctx)
  if isHttp expanded then expanded else base ++ encodeLocalPath expanded

/-! ### Route parsing -/

/-- The `{cls, id}` record returned by `parseRoute`; `none` models `null`. -/
structure JsRoute where
  cls : Option String := none
  id : Option String := none
deriving DecidableEq

/-- Strip of leading and trailing slashes as by `replace(/^\/+|\/+$/g, "")`. -/
def trimSlashes (s : List Char) : List Char :=
  (((s.dropWhile (fun c => c = '/')).reverse.dropWhile (fun c => c = '/')).reverse)

/-- Source lines 32-48: `parseRoute`.  Query parameters win when both are
truthy (and are decoded without an allow-list check); otherwise the decoded
pathname, less the base prefix, is split into `/`-segments, and a configured
non-empty allow-list rejects a first segment outside it. -/
def parseRoute (clsQ idQ : Option String) (pathname base : String)
    (classes : List String) : JsRoute :=
  if jsOr clsQ "" ≠ "" ∧ jsOr idQ "" ≠ "" then
    { cls := some (decodeURIComponentM (jsOr clsQ "")),
      id := some (decodeURIComponentM (jsOr idQ "")) }
  else
    let path0 := decodeURIComponentM pathname
    let path := if base ≠ "/" ∧ path0.startsWith base then
      ⟨path0.data.drop base.data.length⟩ else path0
    let parts := jsplit '/' (trimSlashes path.data)
    if parts.length ≥ 2 then
      let cls : String := ⟨parts.headD []⟩
      if classes.length ≠ 0 ∧ ¬ classes.contains cls then { cls := none, id := none }
      else { cls := some cls, id := some ⟨jjoin '/' parts.tail⟩ }
    else { cls := none, id := none }

/-- The `boot` guard (source line 19): a route with a falsy class or id is
rejected (the RouteError surface). -/
def routeRejected (r : JsRoute) : Bool :=
  jsOr r.cls "" = "" || jsOr r.id "" = ""

/-! ### Renderer registry -/

/-- Ambient configuration of the renderer: the normalised deployment base
path (`BASE`) and an oracle for the `Math.random()`-derived suffix used by
the script renderer, indexed by element and item index. -/
structure Env where
  base : String
  rnd : Nat → Nat → String

/-- Source lines 262-266: `normalizeItems` uses an `items` array when
present, else wraps a truthy `src` into a one-item list, else yields no
items. -/
def normalizeItems (el : Element) : List ItemEntry :=
  match el.items with
  | some l => l
  | none =>
    if jsOr el.src "" ≠ "" then [.obj { src := el.src, label := el.label }] else []

/-- Suffix test on strings. -/
def strEndsWith (s suf : String) : Bool := listPrefix suf.data.reverse s.data.reverse

/-- Source lines 267-280: `guessLang` maps a lower-cased file extension to a
language name, defaulting to the empty string. -/
def guessLang (p : String) : String :=
  let s : String := ⟨p.data.map asciiLower⟩
  if strEndsWith s ".py" then "python"
  else if strEndsWith s ".js" || strEndsWith s ".mjs" || strEndsWith s ".cjs" then "javascript"
  else if strEndsWith s ".ts" then "typescript"
  else if strEndsWith s ".cpp" || strEndsWith s ".cc" || strEndsWith s ".cxx" then "cpp"
  else if strEndsWith s ".c" then "c"
  else if strEndsWith s ".java" then "java"
  else if strEndsWith s ".json" then "json"
  else if strEndsWith s ".md" then "markdown"
  else if strEndsWith s ".html" then "html"
  else if strEndsWith s ".css" then "css"
  else ""

/-- Source line 281: `normalizeType` lower-cases and removes whitespace. -/
def normalizeType (t : Option String) : String :=
  ⟨((jsOr t "").data.map asciiLower).filter (fun c => !jsWhitespaceChar c)⟩

/-- Source lines 250-255: the `section` wrapper around every element
rendering. -/
def sectionHtml (title innerHtml : String) : String :=
  "<section class=\"element\">\n      <h2 class=\"element-title\">" ++
    escapeHtml title ++ "</h2>\n      " ++ innerHtml ++ "\n    </section>"

/-- The shared signature of the renderer registry entries
`(el, ctx, i, page) -> html`, with the ambient configuration made explicit. -/
abbrev Renderer := Env → Element → Ctx → Nat → Page → String

/-- Source lines 136-140: the synopsis renderer. -/
def rendererSynopsis : Renderer := fun _ el _ _ _ =>
  let text := jsOr el.content (jsOr el.text "")
  let title := jsOr el.title "Synopsis"
  sectionHtml title ("<div class=\"card\">" ++ richText text ++ "</div>")

/-- Source lines 141-148: the design-brief renderer. -/
def rendererDesignbrief : Renderer := fun _ el _ _ _ =>
  match el.items with
  | some items =>
    sectionHtml (jsOr el.title "Design Brief")
      (strJoin (items.map (fun txt =>
        "<div class=\"card\" style=\"margin-top:10px\">" ++
          richText txt.asString ++ "</div>")))
  | none =>
    sectionHtml (jsOr el.title "Design Brief")
      ("<div class=\"card\">" ++ richText (jsOr el.content "") ++ "</div>")

/-- Source line 149: the notes renderer. -/
def rendererNotes : Renderer := fun _ el _ _ _ =>
  sectionHtml (jsOr el.title (jsOr el.label "Notes"))
    ("<div class=\"card\">" ++ richText (jsOr el.content "") ++ "</div>")

/-- Source line 11: the `PDF_ZOOM` constant. -/
def PDF_ZOOM : String := "100"

/-- One figure of the pdf renderer (source lines 153-167). -/
def pdfItemFrag (env : Env) (page : Page) (ctx : Ctx) (it : ItemEntry) : String :=
  let src := makeSrc env.base it.src page ctx
  let label := escapeHtml (jsOr it.label "PDF")
  let embedUrl := src ++ "#zoom=" ++ encodeURIComponentM PDF_ZOOM
  let iframe := "<iframe class=\"pdf-frame\" src=\"" ++ embedUrl ++ "\"></iframe>"
  let actions := "\n          <div class=\"media-actions\">\n            <a class=\"btn\" href=\"" ++
    embedUrl ++ "\" target=\"_blank\" rel=\"noopener\">Open in new tab</a>\n            <a class=\"btn\" href=\"" ++
    src ++ "\" download>Download</a>\n          </div>"
  "<figure class=\"media\">\n                  <div class=\"media-center\">" ++ iframe ++
    "</div>\n                  <figcaption class=\"media-caption\">" ++ label ++
    "</figcaption>\n                  " ++ actions ++ "\n                </figure>"

/-- Source lines 151-170: the pdf renderer. -/
def rendererPdf : Renderer := fun env el ctx _ page =>
  sectionHtml (jsOr el.label "PDF")
    (strJoin ((normalizeItems el).map (pdfItemFrag env page ctx)))

/-- Source lines 338-350: `toVideoEmbed` helpers.  Characters of the id
class `[0-9A-Za-z_-]`. -/
def ytIdChar (c : Char) : Bool :=
  (48 ≤ c.toNat ∧ c.toNat ≤ 57) ∨ (65 ≤ c.toNat ∧ c.toNat ≤ 90) ∨
  (97 ≤ c.toNat ∧ c.toNat ≤ 122) ∨ c = '_' ∨ c = '-'

/-- Eleven id-class characters are available here. -/
def ytIdAt (l : List Char) : Bool := l.length ≥ 11 && (l.take 11).all ytIdChar

/-- Leftmost match of `/(?:v=|\/)([0-9A-Za-z_-]{11})/`: the captured eleven
characters, or `none`. -/
def extractYtId : List Char → Option (List Char)
  | [] => none
  | c :: cs =>
    if c = 'v' then
      match cs with
      | '=' :: rest => if ytIdAt rest then some (rest.take 11) else extractYtId cs
      | _ => extractYtId cs
    else if c = '/' then
      if ytIdAt cs then some (cs.take 11) else extractYtId cs
    else extractYtId cs

/-- The `/youtu\.be|youtube\.com/` domain test. -/
def isYtUrl (url : String) : Bool :=
  hasSubstr "youtu.be".data url.data || hasSubstr "youtube.com".data url.data

/-- Case-insensitive (ASCII) prefix test used by the `/i` extension regex. -/
def ciPrefix (pat : List Char) (s : List Char) : Bool :=
  listPrefix pat (s.map asciiLower)

/-- Match of `\.(mp4|webm|ogg)(\?|$)` at one position: an extension follows
the dot, then a question mark or the end of input. -/
def videoExtAt (cs : List Char) : Bool :=
  let boundaryAfter : Nat → Bool := fun n =>
    match cs.drop n with
    | [] => true
    | c :: _ => c = '?'
  (ciPrefix "mp4".data cs && boundaryAfter 3) ||
  (ciPrefix "webm".data cs && boundaryAfter 4) ||
  (ciPrefix "ogg".data cs && boundaryAfter 3)

/-- The `/\.(mp4|webm|ogg)(\?|$)/i` test over a whole string. -/
def hasVideoExtL : List Char → Bool
  | [] => false
  | c :: cs => (c = '.' && videoExtAt cs) || hasVideoExtL cs

/-- String wrapper for `hasVideoExtL`. -/
def hasVideoExt (url : String) : Bool := hasVideoExtL url.data

/-- The iframe emitted for a video-hosting reference (source line 344). -/
def ytIframe (embed : String) : String :=
  "<iframe class=\"video-frame\" src=\"" ++ embed ++
    "\" allow=\"accelerometer; autoplay; clipboard-write; encrypted-media; gyroscope; picture-in-picture\" allowfullscreen></iframe>"

/-- The native playback element (source line 347). -/
def nativeVideo (url : String) : String :=
  "<video class=\"video-frame\" controls src=\"" ++ url ++ "\"></video>"

/-- The generic fallback frame (source line 349). -/
def genericIframe (url : String) : String :=
  "<iframe class=\"video-frame\" src=\"" ++ url ++ "\"></iframe>"

/-- Source lines 338-350: `toVideoEmbed` classifies a resolved reference. -/
def toVideoEmbed (src : String) : String :=
  if isYtUrl src then
    match extractYtId src.data with
    | some id => ytIframe ("https://www.youtube.com/embed/" ++ ⟨id⟩)
    | none => ytIframe src
  else if hasVideoExt src then nativeVideo src
  else genericIframe src

/-- One figure of the video renderer (source lines 174-181). -/
def videoItemFrag (env : Env) (page : Page) (ctx : Ctx) (it : ItemEntry) : String :=
  let src := makeSrc env.base it.src page ctx
  let embed := toVideoEmbed src
  let label := escapeHtml (jsOr it.label "Video")
  "<figure class=\"media\">\n                  <div class=\"media-center\">" ++ embed ++
    "</div>\n                  <figcaption class=\"media-caption\">" ++ label ++
    "</figcaption>\n                </figure>"

/-- Source lines 172-184: the video renderer. -/
def rendererVideo : Renderer := fun env el ctx _ page =>
  sectionHtml (jsOr el.label "Video")
    (strJoin ((normalizeItems el).map (videoItemFrag env page ctx)))

/-- Join with single spaces after dropping falsy entries, as
`[...].filter(Boolean).join(" ")`. -/
def joinSpace (xs : List String) : String :=
  ⟨jjoin ' ' ((xs.filter (fun x => x ≠ "")).map String.data)⟩

/-- One figure of the script renderer (source lines 189-212), for element
index `i` and item index `k`. -/
def scriptItemFrag (env : Env) (page : Page) (ctx : Ctx) (i k : Nat)
    (it : ItemEntry) : String :=
  let src : Option String :=
    if jsOr it.code "" ≠ "" then none else some (makeSrc env.base it.src page ctx)
  let label := escapeHtml (jsOr it.label (jsOr it.language "Script"))
  let lang := escapeHtml (jsOr it.language (guessLang (jsOr it.src "")))
  let codeId := "code-" ++ toString i ++ "-" ++ toString k ++ "-" ++ env.rnd i k
  let preAttrs := joinSpace
    ["id=\"" ++ codeId ++ "\"",
     "class=\"code-window\"",
     if lang ≠ "" then "data-lang=\"" ++ lang ++ "\"" else "",
     match src with
     | some s => "data-src=\"" ++ s ++ "\""
     | none => ""]
  let body :=
    if jsOr it.code "" ≠ "" then
      "<pre " ++ preAttrs ++ ">" ++ escapeHtml (jsOr it.code "") ++ "</pre>"
    else "<pre " ++ preAttrs ++ ">Loading script…</pre>"
  let actions := "\n          <div class=\"media-actions\">\n            <button class=\"btn btn-copy-code\" data-target=\"" ++
    codeId ++ "\">Copy</button>\n            " ++
    (match src with
     | some s => "<a class=\"btn\" href=\"" ++ s ++ "\" download>Download</a>"
     | none => "") ++ "\n          </div>"
  "<figure class=\"media\">\n                  <figcaption class=\"media-caption\">" ++
    label ++ "</figcaption>\n                  " ++ body ++ "\n                  " ++
    actions ++ "\n                </figure>"

/-- Per-item map of the script renderer carrying the item index `k`. -/
def scriptItemsRender (env : Env) (page : Page) (ctx : Ctx) (i : Nat) :
    Nat → List ItemEntry → List String
  | _, [] => []
  | k, it :: rest =>
    scriptItemFrag env page ctx i k it :: scriptItemsRender env page ctx i (k + 1) rest

/-- Source lines 187-215: the script renderer. -/
def rendererScript : Renderer := fun env el ctx i page =>
  sectionHtml (jsOr el.label "Script")
    (strJoin (scriptItemsRender env page ctx i 0 (normalizeItems el)))

/-- Truthiness of an item description (source line 224). -/
def hasDesc (it : ItemEntry) : Bool := jsOr it.description "" ≠ ""

/-- The escaped `alt` attribute value of an image (source line 223). -/
def imageAlt (page : Page) (it : ItemEntry) : String :=
  escapeHtml (jsOr it.alt (jsOr it.label (jsOr page.title "")))

/-- The `img` tag shared by both image figure shapes (source lines 230, 239). -/
def imageTag (env : Env) (page : Page) (ctx : Ctx) (it : ItemEntry) : String :=
  "<img class=\"image-frame\" src=\"" ++ makeSrc env.base it.src page ctx ++
    "\" alt=\"" ++ imageAlt page it ++ "\" loading=\"lazy\">"

/-- The side-by-side figure of a described image item (source lines 226-235),
with its alternating alignment class. -/
def describedImageFrag (env : Env) (page : Page) (ctx : Ctx) (it : ItemEntry)
    (alignClass : String) : String :=
  let label := escapeHtml (jsOr it.label "Image")
  let text := "<div class=\"image-desc\">" ++ richText (jsOr it.description "") ++ "</div>"
  "<figure class=\"media media-described " ++ alignClass ++
    "\">\n                    <figcaption class=\"media-caption\">" ++ label ++
    "</figcaption>\n                    <div class=\"media-wrap\">" ++
    imageTag env page ctx it ++ text ++ "</div>\n                  </figure>"

/-- The centered figure of an undescribed image item (source lines 238-243). -/
def centeredImageFrag (env : Env) (page : Page) (ctx : Ctx) (it : ItemEntry) : String :=
  let label := escapeHtml (jsOr it.label "Image")
  "<figure class=\"media\">\n                  <figcaption class=\"media-caption\">" ++
    label ++ "</figcaption>\n                  <div class=\"media-center\">" ++
    imageTag env page ctx it ++ "</div>\n                </figure>"

/-- One image item given the number of described items already rendered:
described items alternate left/right on the parity of that count, items
without a description are centered (source lines 220-243). -/
def imageItemFrag (env : Env) (page : Page) (ctx : Ctx) (it : ItemEntry)
    (describedBefore : Nat) : String :=
  if hasDesc it then
    describedImageFrag env page ctx it
      (if describedBefore % 2 = 0 then "align-left" else "align-right")
  else centeredImageFrag env page ctx it

/-- The item map of the image renderer with its mutable `describedCount`
rendered as an accumulator (source lines 218-244). -/
def imageItemsRender (env : Env) (page : Page) (ctx : Ctx) :
    Nat → List ItemEntry → String
  | _, [] => ""
  | c, it :: rest =>
    imageItemFrag env page ctx it c ++
      imageItemsRender env page ctx (if hasDesc it then c + 1 else c) rest

/-- Source lines 217-246: the image renderer. -/
def rendererImage : Renderer := fun env el ctx _ page =>
  sectionHtml (jsOr el.label "Image")
    (imageItemsRender env page ctx 0 (normalizeItems el))

/-- Source line 247: `images` delegates to the image renderer. -/
def rendererImages : Renderer := fun env el ctx i page =>
  rendererImage env el ctx i page

/-- Modelled from the spec: `renderUnknown`, the fallback used at the
dispatch site (source line 130), is not defined anywhere in the repository
sources; the spec only says that unrecognized types route to a default
renderer.  It is modelled as a titled section with empty content. -/
def renderUnknown : Renderer := fun _ el _ _ _ =>
  sectionHtml (jsOr el.title (jsOr el.label (jsOr el.type "Element"))) ""

/-- Outcome of the property lookup `RENDERERS[t]` on the registry object
literal under JavaScript semantics, prototype chain included. -/
inductive RegistryHit where
  /-- One of the eight own keys: a renderer function. -/
  | own (r : Renderer)
  /-- The inherited key `constructor`: the `Object` constructor — truthy and
  callable, so the fallback is skipped; calling it on the element returns the
  element itself, which the enclosing `join("")` stringifies. -/
  | objectCtor
  /-- The inherited key `__proto__`: `Object.prototype` — truthy but not
  callable, so the fallback is skipped and the call throws a `TypeError`. -/
  | objectProto
  /-- `undefined`: falsy, so the `|| renderUnknown` fallback applies. -/
  | missing

/-- Source lines 135-248: the renderer registry keyed by normalised type.
Besides the eight own keys, the lookup reaches the prototype chain of the
object literal; since `normalizeType` lower-cases its input, exactly two
inherited property names are reachable: `constructor` and the all-lower-case
accessor `__proto__` (every other `Object.prototype` member name, such as
`toString` or `hasOwnProperty`, contains an upper-case letter and can never
equal a normalised type). -/
def RENDERERS (t : String) : RegistryHit :=
  if t = "synopsis" then .own rendererSynopsis
  else if t = "designbrief" then .own rendererDesignbrief
  else if t = "notes" then .own rendererNotes
  else if t = "pdf" then .own rendererPdf
  else if t = "video" then .own rendererVideo
  else if t = "script" then .own rendererScript
  else if t = "image" then .own rendererImage
  else if t = "images" then .own rendererImages
  else if t = "constructor" then .objectCtor
  else if t = "__proto__" then .objectProto
  else .missing

/-- The dispatch of source lines 129-131: registry hit (own key or reachable
prototype member) or fallback; `none` models the thrown `TypeError` when the
truthy non-callable `Object.prototype` is invoked, and the `constructor` hit
yields the element object itself, which `join("")` stringifies to
`[object Object]`. -/
def renderElement (env : Env) (el : Element) (ctx : Ctx) (i : Nat) (page : Page) :
    Option String :=
  match RENDERERS (normalizeType el.type) with
  | .own r => some (r env el ctx i page)
  | .objectCtor => some "[object Object]"
  | .objectProto => none
  | .missing => some (renderUnknown env el ctx i page)

/-- The indexed map underlying `elements.map((el, i) => ...)`: a thrown
`TypeError` at any element aborts the whole map (later callbacks never
run). -/
def renderListFrom (env : Env) : Nat → List Element → Ctx → Page → Option (List String)
  | _, [], _, _ => some []
  | i, el :: rest, ctx, page =>
    match renderElement env el ctx i page with
    | none => none
    | some s =>
      match renderListFrom env (i + 1) rest ctx page with
      | none => none
      | some ss => some (s :: ss)

/-- Source lines 126-133: `renderElements` joins the per-element renderings
in document order; an empty list renders to the empty string, and a thrown
dispatch propagates. -/
def renderElements (env : Env) (elements : List Element) (ctx : Ctx) (page : Page) :
    Option String :=
  if elements.isEmpty then some ""
  else
    match renderListFrom env 0 elements ctx page with
    | none => none
    | some frags => some (strJoin frags)

/-! ### Page composer (source lines 64-124).  Only the string composed into
`app.innerHTML` is modelled; the `document.title` assignment is a separate
DOM effect outside the composed output. -/

/-- Strip of a final run of slashes as by `replace(/\/+$/, "")`. -/
def dropTrailingSlashes (s : String) : String :=
  ⟨(s.data.reverse.dropWhile (fun c => c = '/')).reverse⟩

/-- The identifier string derived on source lines 72-75: the route id when
truthy, else the last segment of the cleaned pathname. -/
def composerIdStr (ctx : Ctx) (pathname : String) : String :=
  let pathClean := decodeURIComponentM (dropTrailingSlashes pathname)
  strOr (jsOr ctx.id "") ⟨List.getLastD (jsplit '/' pathClean.data) []⟩

/-- The filename stem of source line 77. -/
def composerFileBase (ctx : Ctx) (pathname : String) : String :=
  ⟨stripExtL (List.getLastD (jsplit '/' (composerIdStr ctx pathname).data) [])⟩

/-- The parent directory segment of source line 78. -/
def composerParentDir (pathname : String) : String :=
  let pathClean := decodeURIComponentM (dropTrailingSlashes pathname)
  let parts := jsplit '/' pathClean.data
  decodeURIComponentM
    (if parts.length ≥ 2 then ⟨parts.getD (parts.length - 2) []⟩ else "")

/-- The expanded page title of source lines 81-88. -/
def composerTitle (page : Page) (ctx : Ctx) (pathname : String) : String :=
  let rawTitle := jsOr page.title (jsOr page.name (jsOr ctx.id (composerFileBase ctx pathname)))
  tpl rawTitle
    [("file", composerFileBase ctx pathname),
     ("class", composerParentDir pathname),
     ("id", composerIdStr ctx pathname)]

/-- The header block of source lines 94-106 (chips included). -/
def pageHeaderHtml (page : Page) (ctx : Ctx) (pathname : String) : String :=
  let title := composerTitle page ctx pathname
  let date := jsOr page.date ""
  let chips :=
    (if jsOr ctx.cls "" ≠ "" then
      "<span class=\"chip chip-class\">" ++ escapeHtml (jsOr ctx.cls "") ++ "</span>"
     else "") ++
    (if jsOr page.type "" ≠ "" then
      "<span class=\"chip chip-type\">" ++ escapeHtml (jsOr page.type "") ++ "</span>"
     else "")
  "\n      <header class=\"page-header\">\n        <h1 class=\"page-title\">" ++
    escapeHtml title ++ "</h1>\n        <div class=\"page-tags\">" ++ chips ++
    "</div>\n        " ++
    (if date ≠ "" then "<div class=\"page-date\">" ++ escapeHtml date ++ "</div>" else "") ++
    "\n      </header>\n    "

/-- The abstract block of source lines 109-114. -/
def abstractHtmlOf (page : Page) : String :=
  let brief := page.brief.getD []
  if brief.isEmpty then ""
  else
    "<section class=\"abstract element\">\n          <h2 class=\"element-title\">Abstract</h2>\n          <div class=\"card\"><ul class=\"brief\">" ++
      strJoin (brief.map (fun li => "<li>" ++ escapeHtml li ++ "</li>")) ++
      "</ul></div>\n        </section>"

/-- Source lines 64-124: the string assigned to `app.innerHTML` — header,
abstract, then the ordered element renderings.  A `TypeError` thrown inside
the element map (see `renderElement`) escapes `render` before the assignment,
so no composed output exists in that case (`boot` then shows the error
card). -/
def render (env : Env) (page : Page) (ctx : Ctx) (pathname : String) : Option String :=
  match renderElements env (page.elements.getD []) ctx page with
  | none => none
  | some elementsHtml =>
    some (pageHeaderHtml page ctx pathname ++ abstractHtmlOf page ++ elementsHtml)

/-! ### Hydration (source lines 305-316).  The concurrent per-block fetches
are modelled by an outcome oracle indexed by locator; each pending block is
updated from its own outcome alone. -/

/-- Outcome of one deferred retrieval: a successful response with its body, a
non-success response, or a transport failure (a rejected `fetch` or body
read). -/
inductive FetchOutcome where
  | success (body : String)
  | httpFailure
  | networkError
deriving DecidableEq

/-- The replacement text one pending block receives (source lines 310-314). -/
def hydratedText (o : FetchOutcome) (url : String) : String :=
  match o with
  | .success body => body
  | .httpFailure => "Failed to load: " ++ url
  | .networkError => "Error loading: " ++ url

/-- Source lines 305-316: `hydrateCodeBlocks` over the list of pending block
locators, given the fetch oracle; the result is the per-block replacement
text, in block order. -/
def hydrateCodeBlocks (fetchO : String → FetchOutcome) (srcs : List String) : List String :=
  srcs.map (fun u => hydratedText (fetchO u) u)

/-! ### Auxiliary predicates and sample data used by the theorems below -/

/-- Absence of the placeholder opening brace from a string (the condition
under which a substituted value cannot be re-expanded by a later pass). -/
def noLB (s : String) : Prop := '\x7b' ∉ s.data

instance (s : String) : Decidable (noLB s) := by unfold noLB; infer_instance

/-- Absence of the dollar sign from a string (the condition under which the
replacement-string escapes of `getSubst` cannot fire, so a substituted value
arrives verbatim). -/
def noDollar (s : String) : Prop := '$' ∉ s.data

instance (s : String) : Decidable (noDollar s) := by unfold noDollar; infer_instance

/-- Count of the items carrying a truthy description. -/
def countDescribed (items : List ItemEntry) : Nat := items.countP (fun it => hasDesc it)

/-- The token list of one encoded character as seen by the percent-decoder:
an unreserved character arrives as itself, any other character as the byte
tokens of its UTF-8 encoding (auxiliary description used by the round-trip
proof). -/
def encTok (c : Char) : List PctTok :=
  if uriUnreservedChar c then [.ch c] else (utf8Bytes c).map .byte

/-- Sample environment: root base path, constant random suffix. -/
def env0 : Env := { base := "/", rnd := fun _ _ => "abc123" }

/-- Sample page. -/
def page0 : Page := { title := some "T", type := some "ty" }

/-- Sample route context. -/
def ctx0 : Ctx := { cls := some "DE", id := some "a/b 1.json" }

/-- Sample described image item. -/
def itD0 : ItemEntry := .obj { src := some "x.png", description := some "d" }

/-- Sample fetch oracle: the locator `a` fails with a non-success response,
the locator `b` fails in transport, everything else succeeds. -/
def fetchO0 : String → FetchOutcome := fun u =>
  if u = "a" then .httpFailure
  else if u = "b" then .networkError
  else .success "ok"

/-- Sample elements for the ordering witness. -/
def elA : Element := { type := some "notes", content := some "hello" }

/-- Sample element with an unrecognized type. -/
def elB : Element := { type := some "mystery" }

/-- Sample synopsis element. -/
def elC : Element := { type := some "Synopsis", content := some "s" }

/-- Sample media element with neither items nor src. -/
def elEmpty : Element := { type := some "pdf" }

/-- Sample element whose type normalises to the inherited registry key
`__proto__`. -/
def elProto : Element := { type := some "__proto__" }

/-- Sample element whose type normalises to the inherited registry key
`constructor`. -/
def elCtor : Element := { type := some "Constructor" }

/-- Sample three-element page for the ordering witness. -/
def pageABC : Page := { elements := some [elA, elB, elC] }

/-! ## Theorems -/

set_option maxRecDepth 1000000

/-- Right identity of string append. -/
theorem strAppend_empty (s : String) : s ++ "" = s := by
  apply String.ext
  simp [String.data_append]

/-- Associativity of string append. -/
theorem strAppend_assoc (a b c : String) : a ++ b ++ c = a ++ (b ++ c) := by
  apply String.ext
  simp [String.data_append]

/-- A string is the string of its characters. -/
theorem strMk_data (s : String) : (⟨s.data⟩ : String) = s := rfl

/-! ### C1: the HTML escaper -/

/-- C1 (code bug evaluation): the replacement map of `escapeHtml` keys the
greater-than sign as the entity text `"&gt;"` instead of `">"`, so escaping a
`>` yields the literal word `undefined` rather than `&gt;`, and every
`richText`/`format` output containing an input `>` carries that corruption. -/
theorem escapeHtml_gt_is_undefined :
    escapeHtml ">" = "undefined" ∧
    escapeHtml "<a>" = "&lt;aundefined" ∧
    richText "1 > 0" = "1 undefined 0" := by
  refine ⟨by decide, by decide, by decide⟩

/-! ### C2: the route allow-list -/

/-- C2 (counterexample): a route taken from explicit query parameters is
returned without consulting the configured allow-list: with allow-list
`["DE"]`, query class `X` and id `1` produce a valid (non-rejected) route
whose class is outside the allow-list. -/
theorem parseRoute_query_bypasses_allowlist :
    parseRoute (some "X") (some "1") "/p" "/" ["DE"] =
      { cls := some "X", id := some "1" } ∧
    ("X" : String) ∉ (["DE"] : List String) ∧
    routeRejected { cls := some "X", id := some "1" } = false := by
  refine ⟨by decide, by decide, by decide⟩

/-- C2 (amended): only a route derived from the path-segment convention is
checked against a configured non-empty allow-list: whenever the query branch
is not taken and the allow-list is non-empty, any route `parseRoute` returns
has its class inside the allow-list. -/
theorem parseRoute_path_respects_allowlist (clsQ idQ : Option String)
    (pathname base : String) (classes : List String) (c i : String)
    (hq : jsOr clsQ "" = "" ∨ jsOr idQ "" = "")
    (hcl : classes ≠ [])
    (h : parseRoute clsQ idQ pathname base classes = { cls := some c, id := some i }) :
    c ∈ classes := by
  unfold parseRoute at h
  rw [if_neg (by rcases hq with hq | hq <;> simp [hq])] at h
  set parts := jsplit '/' (trimSlashes
    (if base ≠ "/" ∧ (decodeURIComponentM pathname).startsWith base then
      (⟨(decodeURIComponentM pathname).data.drop base.data.length⟩ : String)
     else decodeURIComponentM pathname).data) with hparts
  by_cases hlen : parts.length ≥ 2
  · rw [if_pos hlen] at h
    by_cases hallow : classes.length ≠ 0 ∧ ¬ classes.contains ⟨parts.headD []⟩
    · rw [if_pos hallow] at h
      cases h
    · rw [if_neg hallow] at h
      have hcls : (⟨parts.headD []⟩ : String) = c := by
        have := congrArg JsRoute.cls h
        simpa using this
      push_neg at hallow
      have hlennz : classes.length ≠ 0 := by
        intro hz
        exact hcl (List.length_eq_zero.mp hz)
      have := hallow hlennz
      rw [hcls] at this
      exact List.mem_of_elem_eq_true this
  · rw [if_neg hlen] at h
    cases h

/-- C2 (witness): the amended theorem applied at a concrete path route. -/
theorem parseRoute_path_respects_allowlist_witness : ("DE" : String) ∈ ["DE"] :=
  parseRoute_path_respects_allowlist none none "/DE/x" "/" ["DE"] "DE" "x"
    (Or.inl rfl) (by decide) (by decide)

/-! ### Replace-scanner lemmas -/

/-- The replace scanner leaves the empty input unchanged at any fuel and any
consumed prefix. -/
theorem replaceAllGo_nil_input (pat rep : List Char) (fuel : Nat) (pre : List Char) :
    replaceAllGo pat rep fuel pre [] = [] := by
  cases fuel <;> rfl

/-- A pattern whose head character does not occur in the input is not a
substring of it. -/
theorem hasSubstr_false_of_head_not_mem (p0 : Char) (ps s : List Char) (h : p0 ∉ s) :
    hasSubstr (p0 :: ps) s = false := by
  induction s with
  | nil => rfl
  | cons c cs ih =>
    have hne : p0 ≠ c := fun e => h (e ▸ List.mem_cons_self c cs)
    simp [hasSubstr, listPrefix, hne, ih (fun hm => h (List.mem_cons_of_mem c hm))]

/-- The replace scanner is the identity when the pattern is not a substring
of the input, whatever the consumed prefix. -/
theorem replaceAllGo_id (pat rep : List Char) (fuel : Nat) (pre s : List Char)
    (h : hasSubstr pat s = false) : replaceAllGo pat rep fuel pre s = s := by
  induction fuel generalizing pre s with
  | zero => rfl
  | succ f ih =>
    cases s with
    | nil => rfl
    | cons c cs =>
      have hsplit : listPrefix pat (c :: cs) = false ∧ hasSubstr pat cs = false := by
        simpa [hasSubstr] using h
      simp [replaceAllGo, hsplit.1, ih (pre ++ [c]) cs hsplit.2]

/-- String form of `replaceAllGo_id`. -/
theorem rAll_id (s pat rep : String) (h : hasSubstr pat.data s.data = false) :
    rAll s pat rep = s := by
  unfold rAll replaceAllL
  rw [replaceAllGo_id _ _ _ _ _ h]

/-- A character other than the dollar sign passes through the substitution
scanner untouched. -/
theorem getSubst_cons_ne (matched pre post : List Char) (c : Char)
    (rest : List Char) (h : c ≠ '$') :
    getSubst matched pre post (c :: rest) = c :: getSubst matched pre post rest := by
  rcases rest with _ | ⟨c2, rest2⟩ <;> simp [getSubst, h]

/-- A replacement free of dollar signs is spliced verbatim. -/
theorem getSubst_no_dollar (matched pre post rep : List Char) (h : '$' ∉ rep) :
    getSubst matched pre post rep = rep := by
  induction rep with
  | nil => rfl
  | cons c rest ih =>
    have hc : c ≠ '$' := fun e => h (e ▸ List.mem_cons_self c rest)
    rw [getSubst_cons_ne _ _ _ _ _ hc, ih (fun hm => h (List.mem_cons_of_mem c hm))]

/-- Every list is a prefix of itself. -/
theorem listPrefix_self (l : List Char) : listPrefix l l = true := by
  induction l <;> simp [listPrefix, *]

/-- Replacing a non-empty pattern inside the pattern itself yields exactly
the replacement, provided the replacement carries no dollar escape. -/
theorem rAll_self_whole (pat rep : String) (h : pat.data ≠ [])
    (hrep : '$' ∉ rep.data) : rAll pat pat rep = rep := by
  unfold rAll replaceAllL
  have hgs : ∀ matched pre post, getSubst matched pre post rep.data = rep.data :=
    fun m p q => getSubst_no_dollar m p q rep.data hrep
  cases hp : pat.data with
  | nil => exact absurd hp h
  | cons c cs =>
    simp [replaceAllGo, listPrefix_self, List.drop_length, replaceAllGo_nil_input, hgs]

/-- A value free of the placeholder opening brace is untouched by any
brace-headed replacement pass. -/
theorem rAll_noLB (s pat rep : String) (hpat : pat.data.head? = some '\x7b')
    (h : noLB s) : rAll s pat rep = s := by
  apply rAll_id
  cases hp : pat.data with
  | nil => rw [hp] at hpat; cases hpat
  | cons c cs =>
    have hc : c = '\x7b' := by rw [hp] at hpat; simpa using hpat
    subst hc
    exact hasSubstr_false_of_head_not_mem _ _ _ h

/-! ### C3: placeholder expansion -/

/-- C3: placeholder expansion is a total function of the template and
context; each recognised token substitutes its context value, and a missing
context value substitutes the empty string (also when the substituted value
is itself empty).  The brace-freeness hypotheses state that the context
values contain no placeholder opening brace, which keeps later passes from
re-expanding an already substituted value; the dollar-freeness hypotheses
state that they contain no dollar sign, so the replacement-string escapes of
the JavaScript `replace` (see `getSubst`) do not transform the value on the
way in.  The `tpl` clauses cover the render-local title expander, whose
three keys are always present and always substitute, even to the empty
string; `tpl` uses a function replacer, so no dollar hypothesis is needed
there. -/
theorem expandTemplatePath_token_substitution (page : Page) (ctx : Ctx)
    (hcls : noLB (jsOr ctx.cls "")) (htype : noLB (jsOr page.type ""))
    (hid : noLB (jsOr ctx.id ""))
    (htitle : noLB (jsOr page.title (jsOr ctx.id "")))
    (hclsD : noDollar (jsOr ctx.cls "")) (htypeD : noDollar (jsOr page.type ""))
    (hidD : noDollar (jsOr ctx.id ""))
    (hfileD : noDollar (filenameStem (jsOr ctx.id "")))
    (htitleD : noDollar (jsOr page.title (jsOr ctx.id ""))) :
    expandTemplatePath (some "\x7bclass\x7d") page ctx = jsOr ctx.cls "" ∧
    expandTemplatePath (some "\x7btype\x7d") page ctx = jsOr page.type "" ∧
    expandTemplatePath (some "\x7bid\x7d") page ctx = jsOr ctx.id "" ∧
    expandTemplatePath (some "\x7bfile\x7d") page ctx = filenameStem (jsOr ctx.id "") ∧
    expandTemplatePath (some "\x7btitle\x7d") page ctx = jsOr page.title (jsOr ctx.id "") ∧
    (ctx.cls = none → expandTemplatePath (some "\x7bclass\x7d") page ctx = "") ∧
    (page.type = none → expandTemplatePath (some "\x7btype\x7d") page ctx = "") ∧
    (ctx.id = none → expandTemplatePath (some "\x7bid\x7d") page ctx = "" ∧
      expandTemplatePath (some "\x7bfile\x7d") page ctx = "") ∧
    (∀ f c i, tpl "\x7bfile\x7d" [("file", f), ("class", c), ("id", i)] = f) ∧
    (∀ f c i, tpl "\x7bclass\x7d" [("file", f), ("class", c), ("id", i)] = c) ∧
    (∀ f c i, tpl "\x7bid\x7d" [("file", f), ("class", c), ("id", i)] = i) := by
  have hclassEq : expandTemplatePath (some "\x7bclass\x7d") page ctx = jsOr ctx.cls "" := by
    simp only [expandTemplatePath]
    rw [show jsOr (some "\x7bclass\x7d") "" = "\x7bclass\x7d" from by decide,
      rAll_id "\x7bclass\x7d" "\x7btitle\x7d" _ (by decide),
      rAll_self_whole "\x7bclass\x7d" _ (by decide) hclsD,
      rAll_noLB (jsOr ctx.cls "") "\x7btype\x7d" _ (by decide) hcls,
      rAll_noLB (jsOr ctx.cls "") "\x7bid\x7d" _ (by decide) hcls,
      rAll_noLB (jsOr ctx.cls "") "\x7bfile\x7d" _ (by decide) hcls]
  have htypeEq : expandTemplatePath (some "\x7btype\x7d") page ctx = jsOr page.type "" := by
    simp only [expandTemplatePath]
    rw [show jsOr (some "\x7btype\x7d") "" = "\x7btype\x7d" from by decide,
      rAll_id "\x7btype\x7d" "\x7btitle\x7d" _ (by decide),
      rAll_id "\x7btype\x7d" "\x7bclass\x7d" _ (by decide),
      rAll_self_whole "\x7btype\x7d" _ (by decide) htypeD,
      rAll_noLB (jsOr page.type "") "\x7bid\x7d" _ (by decide) htype,
      rAll_noLB (jsOr page.type "") "\x7bfile\x7d" _ (by decide) htype]
  have hidEq : expandTemplatePath (some "\x7bid\x7d") page ctx = jsOr ctx.id "" := by
    simp only [expandTemplatePath]
    rw [show jsOr (some "\x7bid\x7d") "" = "\x7bid\x7d" from by decide,
      rAll_id "\x7bid\x7d" "\x7btitle\x7d" _ (by decide),
      rAll_id "\x7bid\x7d" "\x7bclass\x7d" _ (by decide),
      rAll_id "\x7bid\x7d" "\x7btype\x7d" _ (by decide),
      rAll_self_whole "\x7bid\x7d" _ (by decide) hidD,
      rAll_noLB (jsOr ctx.id "") "\x7bfile\x7d" _ (by decide) hid]
  have hfileEq : expandTemplatePath (some "\x7bfile\x7d") page ctx =
      filenameStem (jsOr ctx.id "") := by
    simp only [expandTemplatePath]
    rw [show jsOr (some "\x7bfile\x7d") "" = "\x7bfile\x7d" from by decide,
      rAll_id "\x7bfile\x7d" "\x7btitle\x7d" _ (by decide),
      rAll_id "\x7bfile\x7d" "\x7bclass\x7d" _ (by decide),
      rAll_id "\x7bfile\x7d" "\x7btype\x7d" _ (by decide),
      rAll_id "\x7bfile\x7d" "\x7bid\x7d" _ (by decide),
      rAll_self_whole "\x7bfile\x7d" _ (by decide) hfileD]
  have htitleEq : expandTemplatePath (some "\x7btitle\x7d") page ctx =
      jsOr page.title (jsOr ctx.id "") := by
    simp only [expandTemplatePath]
    rw [rAll_noLB (jsOr page.title (jsOr ctx.id "")) "\x7bfile\x7d" _ (by decide) htitle,
      rAll_noLB (jsOr page.title (jsOr ctx.id "")) "\x7bclass\x7d" _ (by decide) htitle,
      rAll_noLB (jsOr page.title (jsOr ctx.id "")) "\x7bid\x7d" _ (by decide) htitle,
      show jsOr (some "\x7btitle\x7d") "" = "\x7btitle\x7d" from by decide,
      rAll_self_whole "\x7btitle\x7d" _ (by decide) htitleD,
      rAll_noLB (jsOr page.title (jsOr ctx.id "")) "\x7bclass\x7d" _ (by decide) htitle,
      rAll_noLB (jsOr page.title (jsOr ctx.id "")) "\x7btype\x7d" _ (by decide) htitle,
      rAll_noLB (jsOr page.title (jsOr ctx.id "")) "\x7bid\x7d" _ (by decide) htitle,
      rAll_noLB (jsOr page.title (jsOr ctx.id "")) "\x7bfile\x7d" _ (by decide) htitle]
  refine ⟨hclassEq, htypeEq, hidEq, hfileEq, htitleEq, ?_, ?_, ?_, ?_, ?_, ?_⟩
  · intro h; rw [hclassEq, h]; rfl
  · intro h; rw [htypeEq, h]; rfl
  · intro h
    constructor
    · rw [hidEq, h]; rfl
    · rw [hfileEq, h]; rfl
  · intro f c i
    simp [tpl, tplGo, wordChar, List.lookup]
  · intro f c i
    simp [tpl, tplGo, wordChar, List.lookup]
  · intro f c i
    simp [tpl, tplGo, wordChar, List.lookup]

/-- C3 (witness): the token theorem applied at a concrete page and route,
including an empty-valued key that still substitutes. -/
theorem expandTemplatePath_token_substitution_witness :
    expandTemplatePath (some "\x7bclass\x7d") page0 ctx0 = "DE" ∧
    tpl "\x7bid\x7d" [("file", "F"), ("class", "C"), ("id", "")] = "" := by
  have h := expandTemplatePath_token_substitution page0 ctx0
    (by decide) (by decide) (by decide) (by decide)
    (by decide) (by decide) (by decide) (by decide) (by decide)
  exact ⟨h.1.trans (by decide), h.2.2.2.2.2.2.2.2.2.2 "F" "C" ""⟩

/-- Fidelity check of the replacement model against the JavaScript
replacement-string escapes: a class value of two dollar signs collapses to a
single dollar sign during substitution, exactly as
`"{class}".replace(/\{class\}/g, "$$")` does. -/
theorem expandTemplatePath_dollar_escape :
    expandTemplatePath (some "\x7bclass\x7d") {} { cls := some "$$" } = "$" := by
  decide

/-! ### C4: idempotence on absolute locators -/

/-- An absolute locator does not start with a path separator, so the
leading-slash strip leaves it unchanged. -/
theorem isHttp_strip (s : String) (h : isHttp s = true) : stripLeadingSlashes s = s := by
  unfold isHttp at h
  unfold stripLeadingSlashes
  cases hs : s.data with
  | nil => rw [hs] at h; simp [listPrefix] at h
  | cons c cs =>
    have hc : c ≠ '/' := by
      intro e
      subst e
      rw [hs] at h
      rcases Bool.or_eq_true_iff.mp h with h1 | h1 <;>
        simp [listPrefix, asciiLower, Char.ofNat] at h1
    apply String.ext
    rw [hs]
    simp [List.dropWhile_cons, hc]

/-- C4 (amended): an already-absolute resolved locator is returned unchanged,
and resolving it a second time returns it again provided it is a fixed point
of placeholder expansion (in particular whenever it contains no residual
placeholder token); the counterexample shows the fixed-point proviso is
necessary because the second resolution re-runs template expansion. -/
theorem makeSrc_absolute_idempotent (base : String) (p : Option String)
    (page : Page) (ctx : Ctx)
    (h1 : isHttp (stripLeadingSlashes (expandTemplatePath p page ctx)) = true)
    (h2 : expandTemplatePath (some (stripLeadingSlashes (expandTemplatePath p page ctx))) page ctx
      = stripLeadingSlashes (expandTemplatePath p page ctx)) :
    makeSrc base p page ctx = stripLeadingSlashes (expandTemplatePath p page ctx) ∧
    makeSrc base (some (makeSrc base p page ctx)) page ctx = makeSrc base p page ctx := by
  have hfirst : makeSrc base p page ctx = stripLeadingSlashes (expandTemplatePath p page ctx) := by
    simp only [makeSrc]
    rw [if_pos h1]
  refine ⟨hfirst, ?_⟩
  rw [hfirst]
  simp only [makeSrc]
  rw [h2, isHttp_strip _ h1, if_pos h1]

/-- C4 (witness): the amended theorem at a brace-free absolute locator. -/
theorem makeSrc_absolute_idempotent_witness :
    makeSrc "/b/" (some "https://x.y/z") {} {} = "https://x.y/z" ∧
    makeSrc "/b/" (some (makeSrc "/b/" (some "https://x.y/z") {} {})) {} {} =
      makeSrc "/b/" (some "https://x.y/z") {} {} := by
  have h := makeSrc_absolute_idempotent "/b/" (some "https://x.y/z") {} {}
    (by decide) (by decide)
  exact ⟨h.1.trans (by decide), h.2⟩

/-- C4 (counterexample): an already-absolute reference whose expansion still
carries a placeholder token (because the route id itself contains one) is
changed by a second resolution, refuting unconditional idempotence. -/
theorem makeSrc_second_resolution_differs :
    isHttp (stripLeadingSlashes (expandTemplatePath (some "http://a/\x7bid\x7d") {}
      { cls := some "C", id := some "\x7bclass\x7d" })) = true ∧
    makeSrc "/" (some (makeSrc "/" (some "http://a/\x7bid\x7d") {}
        { cls := some "C", id := some "\x7bclass\x7d" })) {}
        { cls := some "C", id := some "\x7bclass\x7d" } ≠
      makeSrc "/" (some "http://a/\x7bid\x7d") {}
        { cls := some "C", id := some "\x7bclass\x7d" } := by
  refine ⟨by decide, by decide⟩

/-! ### C5: percent-encoding round-trip -/

/-- The split of JavaScript never yields an empty list of segments. -/
theorem jsplit_ne_nil (sep : Char) (s : List Char) : jsplit sep s ≠ [] := by
  induction s with
  | nil => simp [jsplit]
  | cons c cs ih =>
    unfold jsplit
    cases h : jsplit sep cs with
    | nil => simp
    | cons x xs => by_cases hc : c = sep <;> simp [hc]

/-- Prepending a character to the first segment commutes with the join. -/
theorem jjoin_cons_cons (sep c : Char) (x : List Char) (xs : List (List Char)) :
    jjoin sep ((c :: x) :: xs) = c :: jjoin sep (x :: xs) := by
  cases xs <;> rfl

/-- Unfolding equation of the split at a cons cell. -/
theorem jsplit_cons (sep c : Char) (cs : List Char) :
    jsplit sep (c :: cs) =
      match jsplit sep cs with
      | [] => [[]]
      | s :: ss => if c = sep then [] :: s :: ss else (c :: s) :: ss := rfl

/-- Joining the segments of a split restores the original list. -/
theorem jjoin_jsplit (sep : Char) (s : List Char) : jjoin sep (jsplit sep s) = s := by
  induction s with
  | nil => rfl
  | cons c cs ih =>
    rw [jsplit_cons]
    cases h : jsplit sep cs with
    | nil => exact absurd h (jsplit_ne_nil sep cs)
    | cons x xs =>
      have htail : jjoin sep (x :: xs) = cs := by rw [← h]; exact ih
      show jjoin sep (if c = sep then [] :: x :: xs else (c :: x) :: xs) = c :: cs
      by_cases hc : c = sep
      · rw [if_pos hc,
          show jjoin sep ([] :: x :: xs) = sep :: jjoin sep (x :: xs) from rfl,
          htail, hc]
      · rw [if_neg hc, jjoin_cons_cons, htail]

/-- A separator-free list splits into itself alone. -/
theorem jsplit_not_mem (sep : Char) (x : List Char) (h : sep ∉ x) :
    jsplit sep x = [x] := by
  induction x with
  | nil => rfl
  | cons c cs ih =>
    have hc : ¬ c = sep := fun e => h (e ▸ List.mem_cons_self c cs)
    rw [jsplit_cons, ih (fun hm => h (List.mem_cons_of_mem c hm))]
    simp [hc]

/-- Splitting after a separator-free head segment peels that segment. -/
theorem jsplit_append (sep : Char) (x t : List Char) (h : sep ∉ x) :
    jsplit sep (x ++ sep :: t) = x :: jsplit sep t := by
  induction x with
  | nil =>
    show jsplit sep (sep :: t) = [] :: jsplit sep t
    rw [jsplit_cons]
    cases h' : jsplit sep t with
    | nil => exact absurd h' (jsplit_ne_nil sep t)
    | cons s ss => simp
  | cons c cs ih =>
    have hc : ¬ c = sep := fun e => h (e ▸ List.mem_cons_self c cs)
    rw [List.cons_append, jsplit_cons, ih (fun hm => h (List.mem_cons_of_mem c hm))]
    simp [hc]

/-- Splitting a join of separator-free segments restores the segments. -/
theorem jsplit_jjoin (sep : Char) (xss : List (List Char)) (hne : xss ≠ [])
    (h : ∀ x ∈ xss, sep ∉ x) : jsplit sep (jjoin sep xss) = xss := by
  induction xss with
  | nil => exact absurd rfl hne
  | cons x xs ih =>
    cases xs with
    | nil => exact jsplit_not_mem sep x (h x (List.mem_cons_self x []))
    | cons y ys =>
      show jsplit sep (x ++ sep :: jjoin sep (y :: ys)) = x :: y :: ys
      rw [jsplit_append sep x _ (h x (List.mem_cons_self x _)),
        ih (by simp) (fun z hz => h z (List.mem_cons_of_mem x hz))]

/-- Every scalar value is below the Unicode bound. -/
theorem char_toNat_lt (c : Char) : c.toNat < 1114112 := by
  show c.val.toNat < 1114112
  rcases c.valid with h | ⟨_, h2⟩
  · have h' : c.val.toNat < (55296 : UInt32).toNat := h
    have he : (55296 : UInt32).toNat = 55296 := rfl
    omega
  · have h' : c.val.toNat < (1114112 : UInt32).toNat := h2
    have he : (1114112 : UInt32).toNat = 1114112 := rfl
    omega

/-- The UTF-8 bytes of a scalar value are bytes. -/
theorem utf8Bytes_lt256 (c : Char) : ∀ b ∈ utf8Bytes c, b < 256 := by
  have hc := char_toNat_lt c
  intro b hb
  simp only [utf8Bytes] at hb
  split_ifs at hb <;>
    simp only [List.mem_cons, List.not_mem_nil, or_false] at hb
  · omega
  · rcases hb with rfl | rfl <;> omega
  · rcases hb with rfl | rfl | rfl <;> omega
  · rcases hb with rfl | rfl | rfl | rfl <;> omega

/-- Hex digits written by `hexUpper` read back through `hexVal`. -/
theorem hexVal_hexUpper (n : Nat) (h : n < 16) : hexVal (hexUpper n) = some n := by
  interval_cases n <;> decide

/-- Both hex digits of a byte escape are below 16. -/
theorem pctTokens_triple (b : Nat) (hb : b < 256) (rest : List Char) :
    pctTokens (pctTriple b ++ rest) = .byte b :: pctTokens rest := by
  have hdiv : b / 16 < 16 := by omega
  have hmod : b % 16 < 16 := by omega
  have harith : 16 * (b / 16) + b % 16 = b := by omega
  simp [pctTriple, pctTokens, hexVal_hexUpper _ hdiv, hexVal_hexUpper _ hmod, harith]

/-- A run of byte escapes tokenises to the corresponding byte tokens. -/
theorem pctTokens_pctTriples (bs : List Nat) (h : ∀ b ∈ bs, b < 256) (rest : List Char) :
    pctTokens ((bs.map pctTriple).flatten ++ rest) = bs.map PctTok.byte ++ pctTokens rest := by
  induction bs with
  | nil => simp
  | cons b bs ih =>
    simp only [List.map_cons, List.flatten_cons, List.append_assoc]
    rw [pctTokens_triple b (h b (List.mem_cons_self b bs)) _,
      ih (fun x hx => h x (List.mem_cons_of_mem b hx))]
    simp

/-- A non-escape character tokenises to itself. -/
theorem pctTokens_cons_ne (c : Char) (cs : List Char) (h : c ≠ '%') :
    pctTokens (c :: cs) = .ch c :: pctTokens cs := by
  rcases cs with _ | ⟨h1, _ | ⟨h2, cs2⟩⟩ <;> simp [pctTokens, h]

/-- Unreserved characters are not the escape character. -/
theorem uriUnreserved_ne_pct (c : Char) (h : uriUnreservedChar c = true) : c ≠ '%' := by
  intro e
  subst e
  revert h
  decide

/-- Tokenising an encoded string yields the per-character token chunks. -/
theorem pctTokens_encode (s : List Char) :
    pctTokens ((s.map encChar).flatten) = (s.map encTok).flatten := by
  induction s with
  | nil => rfl
  | cons c cs ih =>
    simp only [List.map_cons, List.flatten_cons]
    by_cases hu : uriUnreservedChar c
    · rw [show encChar c = [c] from by simp [encChar, hu],
        show encTok c = [.ch c] from by simp [encTok, hu],
        show ([c] ++ (cs.map encChar).flatten) = c :: (cs.map encChar).flatten from rfl,
        pctTokens_cons_ne c _ (uriUnreserved_ne_pct c hu), ih]
      rfl
    · rw [show encChar c = ((utf8Bytes c).map pctTriple).flatten from by simp [encChar, hu],
        show encTok c = (utf8Bytes c).map .byte from by simp [encTok, hu],
        pctTokens_pctTriples _ (utf8Bytes_lt256 c) _, ih]

/-- Decoding the token chunks of an encoded string restores the string, for
any fuel at least the token count. -/
theorem utf8DecodeGo_encTok (s : List Char) : ∀ fuel : Nat,
    ((s.map encTok).flatten).length ≤ fuel →
    utf8DecodeGo fuel ((s.map encTok).flatten) = s := by
  induction s with
  | nil =>
    intro fuel _
    cases fuel <;> rfl
  | cons c cs ih =>
    intro fuel hf
    simp only [List.map_cons, List.flatten_cons] at hf ⊢
    have hc := char_toNat_lt c
    by_cases hu : uriUnreservedChar c
    · rw [show encTok c = [.ch c] from by simp [encTok, hu]] at hf ⊢
      simp only [List.length_append, List.length_cons, List.length_nil] at hf
      cases fuel with
      | zero => omega
      | succ f =>
        show utf8DecodeGo (f + 1) (.ch c :: (cs.map encTok).flatten) = c :: cs
        rw [show utf8DecodeGo (f + 1) (.ch c :: (cs.map encTok).flatten) =
          c :: utf8DecodeGo f ((cs.map encTok).flatten) from rfl]
        rw [ih f (by omega)]
    · rw [show encTok c = (utf8Bytes c).map .byte from by simp [encTok, hu]] at hf ⊢
      by_cases h1 : c.toNat < 128
      · rw [show utf8Bytes c = [c.toNat] from by simp [utf8Bytes, h1]] at hf ⊢
        simp only [List.map_cons, List.map_nil, List.length_append, List.length_cons,
          List.length_nil] at hf ⊢
        cases fuel with
        | zero => omega
        | succ f =>
          show utf8DecodeGo (f + 1) (.byte c.toNat :: (cs.map encTok).flatten) = c :: cs
          rw [show utf8DecodeGo (f + 1) (.byte c.toNat :: (cs.map encTok).flatten) =
            if c.toNat < 128 then
              Char.ofNat c.toNat :: utf8DecodeGo f ((cs.map encTok).flatten)
            else _ from rfl]
          rw [if_pos h1, Char.ofNat_toNat, ih f (by omega)]
      · by_cases h2 : c.toNat < 2048
        · rw [show utf8Bytes c = [192 + c.toNat / 64, 128 + c.toNat % 64] from by
            simp [utf8Bytes, h1, h2]] at hf ⊢
          simp only [List.map_cons, List.map_nil, List.length_append,
            List.length_cons, List.length_nil] at hf ⊢
          cases fuel with
          | zero => omega
          | succ f =>
            show utf8DecodeGo (f + 1) (.byte (192 + c.toNat / 64) ::
              .byte (128 + c.toNat % 64) :: (cs.map encTok).flatten) = c :: cs
            rw [show utf8DecodeGo (f + 1) (.byte (192 + c.toNat / 64) ::
              .byte (128 + c.toNat % 64) :: (cs.map encTok).flatten) =
              if 192 + c.toNat / 64 < 128 then
                Char.ofNat (192 + c.toNat / 64) ::
                  utf8DecodeGo f (.byte (128 + c.toNat % 64) :: (cs.map encTok).flatten)
              else if 192 + c.toNat / 64 < 194 then
                '\xfd' :: utf8DecodeGo f (.byte (128 + c.toNat % 64) :: (cs.map encTok).flatten)
              else if 192 + c.toNat / 64 < 224 then
                if utf8Cont (128 + c.toNat % 64) then
                  Char.ofNat ((192 + c.toNat / 64 - 192) * 64 + (128 + c.toNat % 64 - 128)) ::
                    utf8DecodeGo f ((cs.map encTok).flatten)
                else '\xfd' :: utf8DecodeGo f (.byte (128 + c.toNat % 64) :: (cs.map encTok).flatten)
              else _ from rfl]
            rw [if_neg (by omega), if_neg (by omega), if_pos (by omega),
              if_pos (by simp [utf8Cont]; omega)]
            have harith : (192 + c.toNat / 64 - 192) * 64 + (128 + c.toNat % 64 - 128)
                = c.toNat := by omega
            rw [harith, Char.ofNat_toNat, ih f (by omega)]
        · by_cases h3 : c.toNat < 65536
          · rw [show utf8Bytes c = [224 + c.toNat / 4096, 128 + c.toNat / 64 % 64,
              128 + c.toNat % 64] from by simp [utf8Bytes, h1, h2, h3]] at hf ⊢
            simp only [List.map_cons, List.map_nil, List.length_append,
              List.length_cons, List.length_nil] at hf ⊢
            cases fuel with
            | zero => omega
            | succ f =>
              show utf8DecodeGo (f + 1) (.byte (224 + c.toNat / 4096) ::
                .byte (128 + c.toNat / 64 % 64) :: .byte (128 + c.toNat % 64) ::
                (cs.map encTok).flatten) = c :: cs
              rw [show utf8DecodeGo (f + 1) (.byte (224 + c.toNat / 4096) ::
                .byte (128 + c.toNat / 64 % 64) :: .byte (128 + c.toNat % 64) ::
                (cs.map encTok).flatten) =
                if 224 + c.toNat / 4096 < 128 then
                  Char.ofNat (224 + c.toNat / 4096) :: utf8DecodeGo f
                    (.byte (128 + c.toNat / 64 % 64) :: .byte (128 + c.toNat % 64) ::
                      (cs.map encTok).flatten)
                else if 224 + c.toNat / 4096 < 194 then
                  '\xfd' :: utf8DecodeGo f
                    (.byte (128 + c.toNat / 64 % 64) :: .byte (128 + c.toNat % 64) ::
                      (cs.map encTok).flatten)
                else if 224 + c.toNat / 4096 < 224 then _
                else if 224 + c.toNat / 4096 < 240 then
                  if utf8Cont (128 + c.toNat / 64 % 64) ∧ utf8Cont (128 + c.toNat % 64) then
                    Char.ofNat ((224 + c.toNat / 4096 - 224) * 4096 +
                      (128 + c.toNat / 64 % 64 - 128) * 64 + (128 + c.toNat % 64 - 128)) ::
                      utf8DecodeGo f ((cs.map encTok).flatten)
                  else '\xfd' :: utf8DecodeGo f
                    (.byte (128 + c.toNat / 64 % 64) :: .byte (128 + c.toNat % 64) ::
                      (cs.map encTok).flatten)
                else _ from rfl]
              rw [if_neg (by omega), if_neg (by omega), if_neg (by omega),
                if_pos (by omega), if_pos (by constructor <;> simp [utf8Cont] <;> omega)]
              have harith : (224 + c.toNat / 4096 - 224) * 4096 +
                  (128 + c.toNat / 64 % 64 - 128) * 64 + (128 + c.toNat % 64 - 128)
                  = c.toNat := by omega
              rw [harith, Char.ofNat_toNat, ih f (by omega)]
          · rw [show utf8Bytes c = [240 + c.toNat / 262144, 128 + c.toNat / 4096 % 64,
              128 + c.toNat / 64 % 64, 128 + c.toNat % 64] from by
              simp [utf8Bytes, h1, h2, h3]] at hf ⊢
            simp only [List.map_cons, List.map_nil, List.length_append,
              List.length_cons, List.length_nil] at hf ⊢
            cases fuel with
            | zero => omega
            | succ f =>
              show utf8DecodeGo (f + 1) (.byte (240 + c.toNat / 262144) ::
                .byte (128 + c.toNat / 4096 % 64) :: .byte (128 + c.toNat / 64 % 64) ::
                .byte (128 + c.toNat % 64) :: (cs.map encTok).flatten) = c :: cs
              rw [show utf8DecodeGo (f + 1) (.byte (240 + c.toNat / 262144) ::
                .byte (128 + c.toNat / 4096 % 64) :: .byte (128 + c.toNat / 64 % 64) ::
                .byte (128 + c.toNat % 64) :: (cs.map encTok).flatten) =
                if 240 + c.toNat / 262144 < 128 then
                  Char.ofNat (240 + c.toNat / 262144) :: utf8DecodeGo f
                    (.byte (128 + c.toNat / 4096 % 64) :: .byte (128 + c.toNat / 64 % 64) ::
                      .byte (128 + c.toNat % 64) :: (cs.map encTok).flatten)
                else if 240 + c.toNat / 262144 < 194 then
                  '\xfd' :: utf8DecodeGo f
                    (.byte (128 + c.toNat / 4096 % 64) :: .byte (128 + c.toNat / 64 % 64) ::
                      .byte (128 + c.toNat % 64) :: (cs.map encTok).flatten)
                else if 240 + c.toNat / 262144 < 224 then _
                else if 240 + c.toNat / 262144 < 240 then _
                else if 240 + c.toNat / 262144 < 245 then
                  if utf8Cont (128 + c.toNat / 4096 % 64) ∧ utf8Cont (128 + c.toNat / 64 % 64) ∧
                      utf8Cont (128 + c.toNat % 64) then
                    Char.ofNat ((240 + c.toNat / 262144 - 240) * 262144 +
                      (128 + c.toNat / 4096 % 64 - 128) * 4096 +
                      (128 + c.toNat / 64 % 64 - 128) * 64 + (128 + c.toNat % 64 - 128)) ::
                      utf8DecodeGo f ((cs.map encTok).flatten)
                  else '\xfd' :: utf8DecodeGo f
                    (.byte (128 + c.toNat / 4096 % 64) :: .byte (128 + c.toNat / 64 % 64) ::
                      .byte (128 + c.toNat % 64) :: (cs.map encTok).flatten)
                else _ from rfl]
              rw [if_neg (by omega), if_neg (by omega), if_neg (by omega),
                if_neg (by omega), if_pos (by omega),
                if_pos (by refine ⟨?_, ?_, ?_⟩ <;> simp [utf8Cont] <;> omega)]
              have harith : (240 + c.toNat / 262144 - 240) * 262144 +
                  (128 + c.toNat / 4096 % 64 - 128) * 4096 +
                  (128 + c.toNat / 64 % 64 - 128) * 64 + (128 + c.toNat % 64 - 128)
                  = c.toNat := by omega
              rw [harith, Char.ofNat_toNat, ih f (by omega)]

/-- Round trip of a whole string through the percent coder. -/
theorem decodeURIComponentM_encodeURIComponentM (s : String) :
    decodeURIComponentM (encodeURIComponentM s) = s := by
  unfold decodeURIComponentM encodeURIComponentM
  show (⟨utf8DecodeGo (pctTokens ((s.data.map encChar).flatten)).length
    (pctTokens ((s.data.map encChar).flatten))⟩ : String) = s
  rw [pctTokens_encode, utf8DecodeGo_encTok s.data _ le_rfl]

/-- An upper-case hex digit is never a path separator. -/
theorem hexUpper_ne_slash (n : Nat) (h : n < 16) : hexUpper n ≠ '/' := by
  interval_cases n <;> decide

/-- No character written by the segment encoder is a path separator. -/
theorem slash_not_mem_encChar (c : Char) : '/' ∉ encChar c := by
  unfold encChar
  by_cases hu : uriUnreservedChar c
  · rw [if_pos hu]
    intro hm
    simp at hm
    subst hm
    revert hu
    decide
  · rw [if_neg hu]
    intro hm
    rcases List.mem_flatten.mp hm with ⟨l, hl, hcl⟩
    rcases List.mem_map.mp hl with ⟨b, hb, rfl⟩
    have hb256 := utf8Bytes_lt256 c b hb
    simp only [pctTriple, List.mem_cons, List.not_mem_nil, or_false] at hcl
    rcases hcl with h | h | h
    · cases h
    · exact hexUpper_ne_slash (b / 16) (by omega) h.symm
    · exact hexUpper_ne_slash (b % 16) (by omega) h.symm

/-- Segment-wise decoding inverts the segment encoder on every path. -/
theorem decodeLocalPath_encodeLocalPath (p : String) :
    decodeLocalPath (encodeLocalPath p) = p := by
  unfold decodeLocalPath encodeLocalPath
  have hsplit : jsplit '/' (jjoin '/' ((jsplit '/' p.data).map
      (fun seg => if seg.isEmpty then [] else (encodeURIComponentM ⟨seg⟩).data))) =
      (jsplit '/' p.data).map
        (fun seg => if seg.isEmpty then [] else (encodeURIComponentM ⟨seg⟩).data) := by
    apply jsplit_jjoin
    · intro hmap
      exact jsplit_ne_nil '/' p.data (List.map_eq_nil_iff.mp hmap)
    · intro x hx
      rcases List.mem_map.mp hx with ⟨seg, _, rfl⟩
      by_cases hempty : seg.isEmpty
      · simp [hempty]
      · rw [if_neg hempty]
        intro hm
        rcases List.mem_flatten.mp hm with ⟨l, hl, hcl⟩
        rcases List.mem_map.mp hl with ⟨ch, _, rfl⟩
        exact slash_not_mem_encChar ch hcl
  rw [hsplit, List.map_map]
  have hmapid : ∀ seg ∈ jsplit '/' p.data,
      ((fun seg => (decodeURIComponentM ⟨seg⟩).data) ∘
        (fun seg => if seg.isEmpty then [] else (encodeURIComponentM ⟨seg⟩).data)) seg
        = id seg := by
    intro seg _
    by_cases hempty : seg.isEmpty
    · have hnil : seg = [] := by
        cases seg with
        | nil => rfl
        | cons a as => simp [List.isEmpty] at hempty
      subst hnil
      rfl
    · simp only [Function.comp_apply, if_neg hempty, id]
      rw [show (⟨(encodeURIComponentM ⟨seg⟩).data⟩ : String) = encodeURIComponentM ⟨seg⟩
        from rfl, decodeURIComponentM_encodeURIComponentM ⟨seg⟩]
  rw [List.map_congr_left hmapid, List.map_id, jjoin_jsplit]

/-- C5: a local (non-absolute) reference resolves to the base path followed
by the segment-wise percent-encoded expanded reference, and decoding the
encoded part segment by segment recovers the expanded, leading-separator
stripped reference exactly. -/
theorem makeSrc_local_roundtrip (base : String) (p : Option String)
    (page : Page) (ctx : Ctx)
    (h : isHttp (stripLeadingSlashes (expandTemplatePath p page ctx)) = false) :
    makeSrc base p page ctx =
      base ++ encodeLocalPath (stripLeadingSlashes (expandTemplatePath p page ctx)) ∧
    decodeLocalPath (encodeLocalPath (stripLeadingSlashes (expandTemplatePath p page ctx)))
      = stripLeadingSlashes (expandTemplatePath p page ctx) := by
  constructor
  · simp only [makeSrc]
    rw [if_neg (by simp [h])]
  · exact decodeLocalPath_encodeLocalPath _

/-- C5 (witness): the round trip at a reference carrying spaces, a hash sign
and a percent sign. -/
theorem makeSrc_local_roundtrip_witness :
    makeSrc "/b/" (some "d x/a c#%.pdf") {} {} = "/b/d%20x/a%20c%23%25.pdf" ∧
    decodeLocalPath (encodeLocalPath (stripLeadingSlashes
      (expandTemplatePath (some "d x/a c#%.pdf") {} {}))) =
      stripLeadingSlashes (expandTemplatePath (some "d x/a c#%.pdf") {} {}) := by
  have h := makeSrc_local_roundtrip "/b/" (some "d x/a c#%.pdf") {} {} (by decide)
  exact ⟨h.1.trans (by decide), h.2⟩

/-! ### C6: element ordering in the composed output -/

/-- C6: whenever every element of a three-element document dispatches to a
fragment, the composed output exists and is the header, the abstract, then
those fragments joined exactly in document order; an absent or empty
`elements` sequence leaves the elements zone empty without error.  The
dispatch itself follows JavaScript property lookup on the registry object:
an element whose normalised type is the inherited key `constructor` renders
to the fragment `[object Object]` (still in order), while `__proto__` makes
the dispatch throw, so no composed output exists at all in that case; the
fallback for genuinely missing keys is the spec-modelled `renderUnknown`. -/
theorem render_element_order (env : Env) (page : Page) (ctx : Ctx)
    (pathname : String) (A B C : Element) :
    (∀ a b c, page.elements = some [A, B, C] →
      renderElement env A ctx 0 page = some a →
      renderElement env B ctx 1 page = some b →
      renderElement env C ctx 2 page = some c →
      render env page ctx pathname =
        some (pageHeaderHtml page ctx pathname ++ abstractHtmlOf page ++
          (a ++ b ++ c))) ∧
    (page.elements = none →
      render env page ctx pathname =
        some (pageHeaderHtml page ctx pathname ++ abstractHtmlOf page ++ "")) ∧
    (page.elements = some [] →
      render env page ctx pathname =
        some (pageHeaderHtml page ctx pathname ++ abstractHtmlOf page ++ "")) ∧
    renderElements env [] ctx page = some "" ∧
    (∀ el i, normalizeType el.type = "constructor" →
      renderElement env el ctx i page = some "[object Object]") ∧
    (∀ el i, normalizeType el.type = "__proto__" →
      renderElement env el ctx i page = none) := by
  refine ⟨?_, ?_, ?_, rfl, ?_, ?_⟩
  · intro a b c h ha hb hc
    have hlist : renderListFrom env 0 [A, B, C] ctx page = some [a, b, c] := by
      simp only [renderListFrom, ha, hb, hc]
    have helems : renderElements env [A, B, C] ctx page = some (strJoin [a, b, c]) := by
      simp only [renderElements]
      rw [if_neg (by simp), hlist]
    have hstr : strJoin [a, b, c] = a ++ b ++ c := by
      apply String.ext
      simp [strJoin, String.data_append]
    unfold render
    rw [h]
    show (match renderElements env [A, B, C] ctx page with
      | none => none
      | some elementsHtml =>
        some (pageHeaderHtml page ctx pathname ++ abstractHtmlOf page ++ elementsHtml)) =
      some (pageHeaderHtml page ctx pathname ++ abstractHtmlOf page ++ (a ++ b ++ c))
    rw [helems, hstr]
  · intro h
    unfold render
    rw [h]
    rfl
  · intro h
    unfold render
    rw [h]
    rfl
  · intro el i h
    unfold renderElement
    rw [h]
    rfl
  · intro el i h
    unfold renderElement
    rw [h]
    rfl

/-- C6 (witness): the ordering theorem at a concrete three-element page,
together with the two reachable prototype-chain dispatch outcomes. -/
theorem render_element_order_witness :
    render env0 pageABC ctx0 "/p" =
      some (pageHeaderHtml pageABC ctx0 "/p" ++ abstractHtmlOf pageABC ++
        (rendererNotes env0 elA ctx0 0 pageABC ++ renderUnknown env0 elB ctx0 1 pageABC ++
          rendererSynopsis env0 elC ctx0 2 pageABC)) ∧
    renderElement env0 elCtor ctx0 0 pageABC = some "[object Object]" ∧
    renderElement env0 elProto ctx0 0 pageABC = none := by
  have h := render_element_order env0 pageABC ctx0 "/p" elA elB elC
  exact ⟨h.1 _ _ _ rfl rfl rfl rfl,
    h.2.2.2.2.1 elCtor 0 (by decide),
    h.2.2.2.2.2 elProto 0 (by decide)⟩

/-! ### C7: image alternation over described items -/

/-- C7: the image renderer maps its items left to right; splitting the item
list anywhere advances the described-item counter by exactly the number of
described items in the prefix; a described item aligns left exactly when the
number of described items before it is even and right when it is odd, while
an undescribed item renders centered at any counter value (so it never
advances the alternation). -/
theorem image_alternation (env : Env) (page : Page) (ctx : Ctx) :
    (∀ el i, rendererImage env el ctx i page =
      sectionHtml (jsOr el.label "Image")
        (imageItemsRender env page ctx 0 (normalizeItems el))) ∧
    (∀ c pre post, imageItemsRender env page ctx c (pre ++ post) =
      imageItemsRender env page ctx c pre ++
        imageItemsRender env page ctx (c + countDescribed pre) post) ∧
    (∀ c it, imageItemsRender env page ctx c [it] = imageItemFrag env page ctx it c) ∧
    (∀ it b, hasDesc it = true → b % 2 = 0 →
      imageItemFrag env page ctx it b = describedImageFrag env page ctx it "align-left") ∧
    (∀ it b, hasDesc it = true → b % 2 = 1 →
      imageItemFrag env page ctx it b = describedImageFrag env page ctx it "align-right") ∧
    (∀ it b, hasDesc it = false →
      imageItemFrag env page ctx it b = centeredImageFrag env page ctx it) := by
  refine ⟨fun el i => rfl, ?_, ?_, ?_, ?_, ?_⟩
  · intro c pre post
    induction pre generalizing c with
    | nil =>
      rw [List.nil_append,
        show imageItemsRender env page ctx c [] = "" from rfl,
        show countDescribed [] = 0 from rfl, Nat.add_zero]
      rfl
    | cons it pre ih =>
      have harith : (if hasDesc it then c + 1 else c) + countDescribed pre =
          c + countDescribed (it :: pre) := by
        by_cases hd : hasDesc it <;>
          simp [countDescribed, List.countP_cons, hd] <;> omega
      rw [List.cons_append,
        show imageItemsRender env page ctx c (it :: (pre ++ post)) =
          imageItemFrag env page ctx it c ++ imageItemsRender env page ctx
            (if hasDesc it then c + 1 else c) (pre ++ post) from rfl,
        ih,
        show imageItemsRender env page ctx c (it :: pre) =
          imageItemFrag env page ctx it c ++ imageItemsRender env page ctx
            (if hasDesc it then c + 1 else c) pre from rfl,
        strAppend_assoc, harith]
  · intro c it
    rw [show imageItemsRender env page ctx c [it] =
      imageItemFrag env page ctx it c ++ imageItemsRender env page ctx
        (if hasDesc it then c + 1 else c) [] from rfl,
      show imageItemsRender env page ctx (if hasDesc it then c + 1 else c) [] = ""
        from rfl, strAppend_empty]
  · intro it b hd hb
    unfold imageItemFrag
    rw [if_pos hd, if_pos hb]
  · intro it b hd hb
    unfold imageItemFrag
    rw [if_pos hd, if_neg (by omega)]
  · intro it b hd
    unfold imageItemFrag
    rw [if_neg (by simp [hd])]

/-- C7 (witness): a described item at counters zero and one takes the left
and the right alignment respectively. -/
theorem image_alternation_witness :
    imageItemFrag env0 page0 ctx0 itD0 0 = describedImageFrag env0 page0 ctx0 itD0 "align-left" ∧
    imageItemFrag env0 page0 ctx0 itD0 1 = describedImageFrag env0 page0 ctx0 itD0 "align-right" := by
  have h := image_alternation env0 page0 ctx0
  exact ⟨h.2.2.2.1 itD0 0 (by decide) (by decide),
    h.2.2.2.2.1 itD0 1 (by decide) (by decide)⟩

/-! ### C8: video classification -/

/-- C8 (counterexample): a reference matching the video-hosting domain
pattern from which no eleven-character id is extractable — and which carries
no video file extension — still becomes the video-hosting iframe (with the
playback allow-attributes) at the unmodified reference, not the generic
iframe the claim prescribes for such references. -/
theorem toVideoEmbed_domain_without_id :
    isYtUrl "https://youtube.com/a" = true ∧
    extractYtId "https://youtube.com/a".data = none ∧
    hasVideoExt "https://youtube.com/a" = false ∧
    toVideoEmbed "https://youtube.com/a" = ytIframe "https://youtube.com/a" ∧
    toVideoEmbed "https://youtube.com/a" ≠ genericIframe "https://youtube.com/a" := by
  refine ⟨by decide, by decide, by decide, by decide, by decide⟩

/-- C8 (amended): a reference matching the video-hosting domain pattern
always becomes the video-hosting iframe — at the canonical embed locator
when an eleven-character id is extractable, at the unchanged reference
otherwise; a non-matching reference ending in a known video extension
becomes the native playback element; every other reference becomes the
generic iframe. -/
theorem toVideoEmbed_classification (url : String) :
    (∀ id_, isYtUrl url = true → extractYtId url.data = some id_ →
      toVideoEmbed url = ytIframe ("https://www.youtube.com/embed/" ++ ⟨id_⟩)) ∧
    (isYtUrl url = true → extractYtId url.data = none → toVideoEmbed url = ytIframe url) ∧
    (isYtUrl url = false → hasVideoExt url = true → toVideoEmbed url = nativeVideo url) ∧
    (isYtUrl url = false → hasVideoExt url = false → toVideoEmbed url = genericIframe url) := by
  refine ⟨?_, ?_, ?_, ?_⟩
  · intro id_ hyt hid
    unfold toVideoEmbed
    rw [if_pos hyt, hid]
  · intro hyt hid
    unfold toVideoEmbed
    rw [if_pos hyt, hid]
  · intro hyt hext
    unfold toVideoEmbed
    rw [if_neg (by simp [hyt]), if_pos hext]
  · intro hyt hext
    unfold toVideoEmbed
    rw [if_neg (by simp [hyt]), if_neg (by simp [hext])]

/-- C8 (witness): the amended classification at a short-form video locator
with an extractable id and at a direct file reference. -/
theorem toVideoEmbed_classification_witness :
    toVideoEmbed "https://youtu.be/dQw4w9WgXcQ" =
      ytIframe "https://www.youtube.com/embed/dQw4w9WgXcQ" ∧
    toVideoEmbed "vid.mp4" = nativeVideo "vid.mp4" := by
  have h1 := (toVideoEmbed_classification "https://youtu.be/dQw4w9WgXcQ").1
    "dQw4w9WgXcQ".data (by decide) (by decide)
  have h2 := (toVideoEmbed_classification "vid.mp4").2.2.1 (by decide) (by decide)
  exact ⟨h1.trans (by decide), h2⟩

/-! ### C9: hydration of pending script blocks -/

/-- C9: hydration maps each pending block to a text that depends only on its
own locator and fetch outcome — the retrieved body on success, exactly
`Failed to load: <locator>` on a non-success response and exactly
`Error loading: <locator>` on a transport failure — and hydrating a
concatenation of block lists hydrates each part independently, so one
failure cannot affect any other block or the page. -/
theorem hydrate_per_block (fetchO : String → FetchOutcome) :
    (∀ srcs, hydrateCodeBlocks fetchO srcs =
      srcs.map (fun u => hydratedText (fetchO u) u)) ∧
    (∀ xs ys, hydrateCodeBlocks fetchO (xs ++ ys) =
      hydrateCodeBlocks fetchO xs ++ hydrateCodeBlocks fetchO ys) ∧
    (∀ u body, fetchO u = .success body → hydratedText (fetchO u) u = body) ∧
    (∀ u, fetchO u = .httpFailure → hydratedText (fetchO u) u = "Failed to load: " ++ u) ∧
    (∀ u, fetchO u = .networkError → hydratedText (fetchO u) u = "Error loading: " ++ u) := by
  refine ⟨fun srcs => rfl, fun xs ys => List.map_append _ xs ys, ?_, ?_, ?_⟩
  · intro u body h
    rw [show hydratedText (fetchO u) u = hydratedText (.success body) u from by rw [h]]
    rfl
  · intro u h
    rw [show hydratedText (fetchO u) u = hydratedText .httpFailure u from by rw [h]]
    rfl
  · intro u h
    rw [show hydratedText (fetchO u) u = hydratedText .networkError u from by rw [h]]
    rfl

/-- C9 (witness): the hydration theorem at a concrete oracle failing one
block with a non-success response and another in transport. -/
theorem hydrate_per_block_witness :
    hydratedText (fetchO0 "a") "a" = "Failed to load: a" ∧
    hydratedText (fetchO0 "b") "b" = "Error loading: b" ∧
    hydratedText (fetchO0 "c") "c" = "ok" := by
  have h := hydrate_per_block fetchO0
  exact ⟨h.2.2.2.1 "a" (by decide), h.2.2.2.2 "b" (by decide),
    h.2.2.1 "c" "ok" (by decide)⟩

/-! ### C10: item normalisation and empty-section degradation -/

/-- C10: an `items` array always wins (any top-level `src` is ignored), a
truthy `src` without items becomes the one-item list `{src, label}`, and
with neither the item list is empty while each media renderer still produces
its titled section with empty content instead of failing. -/
theorem normalizeItems_fallbacks (env : Env) (ctx : Ctx) (page : Page)
    (el : Element) (i : Nat) :
    (∀ l, el.items = some l → normalizeItems el = l) ∧
    (el.items = none → jsOr el.src "" ≠ "" →
      normalizeItems el = [.obj { src := el.src, label := el.label }]) ∧
    (el.items = none → jsOr el.src "" = "" → normalizeItems el = []) ∧
    (el.items = none → jsOr el.src "" = "" →
      rendererPdf env el ctx i page = sectionHtml (jsOr el.label "PDF") "" ∧
      rendererVideo env el ctx i page = sectionHtml (jsOr el.label "Video") "" ∧
      rendererScript env el ctx i page = sectionHtml (jsOr el.label "Script") "" ∧
      rendererImage env el ctx i page = sectionHtml (jsOr el.label "Image") "" ∧
      rendererImages env el ctx i page = sectionHtml (jsOr el.label "Image") "") := by
  have hitems : ∀ l, el.items = some l → normalizeItems el = l := by
    intro l h
    unfold normalizeItems
    rw [h]
  have hsrc : el.items = none → jsOr el.src "" ≠ "" →
      normalizeItems el = [.obj { src := el.src, label := el.label }] := by
    intro h hs
    unfold normalizeItems
    rw [h]
    show (if jsOr el.src "" ≠ "" then _ else _) = _
    rw [if_pos hs]
  have hempty : el.items = none → jsOr el.src "" = "" → normalizeItems el = [] := by
    intro h hs
    unfold normalizeItems
    rw [h]
    show (if jsOr el.src "" ≠ "" then _ else _) = _
    rw [if_neg (by simp [hs])]
  refine ⟨hitems, hsrc, hempty, ?_⟩
  intro h hs
  have hni := hempty h hs
  refine ⟨?_, ?_, ?_, ?_, ?_⟩
  · show sectionHtml (jsOr el.label "PDF")
      (strJoin ((normalizeItems el).map (pdfItemFrag env page ctx))) = _
    rw [hni]
    rfl
  · show sectionHtml (jsOr el.label "Video")
      (strJoin ((normalizeItems el).map (videoItemFrag env page ctx))) = _
    rw [hni]
    rfl
  · show sectionHtml (jsOr el.label "Script")
      (strJoin (scriptItemsRender env page ctx i 0 (normalizeItems el))) = _
    rw [hni]
    rfl
  · show sectionHtml (jsOr el.label "Image")
      (imageItemsRender env page ctx 0 (normalizeItems el)) = _
    rw [hni]
    rfl
  · show sectionHtml (jsOr el.label "Image")
      (imageItemsRender env page ctx 0 (normalizeItems el)) = _
    rw [hni]
    rfl

/-- C10 (witness): a pdf element with neither items nor src still renders a
titled, empty section. -/
theorem normalizeItems_fallbacks_witness :
    normalizeItems elEmpty = [] ∧
    rendererPdf env0 elEmpty ctx0 0 page0 = sectionHtml (jsOr elEmpty.label "PDF") "" := by
  have h := normalizeItems_fallbacks env0 ctx0 page0 elEmpty 0
  exact ⟨h.2.2.1 rfl rfl, (h.2.2.2 rfl rfl).1⟩

end Interp
